import Mathlib

set_option maxHeartbeats 1000000

/-!
Verification of the generic object-model kernel in `src/objects.c` (GAP).

The development shallowly embeds the deep-copy / clean engine
(`CopyObj`, the `CopyObjFuncs` / `CleanObjFuncs` dispatch, `CopyObjPosObj`,
`CopyObjPosObjCopy`, `CleanObjPosObjCopy`), the identity-exchange and clone
primitives (`FuncSWITCH_OBJ`, `FuncFORCE_SWITCH_OBJ`, `FuncCLONE_OBJ`), the
recursive printer (`PrintObj`, `IS_MARKED`, `MAXPRINTDEPTH`), the save/load
bodies (`SaveComObj`/`LoadComObj`, `SavePosObj`/`LoadPosObj`,
`SaveDatObj`/`LoadDatObj`) and `SET_TYPE_COMOBJ_Handler`.

Modelling conventions (each noted again at the definition it concerns):
* A heap bag is a `Cell`; the `+COPYING` tag offset is the Boolean field
  `copying` (the base tag plus the flag together model `TNUM_OBJ`).
* `ADDR_OBJ(obj)[0]` (the type/descriptor slot, which the copy engine
  temporarily replaces by a forwarding plist) is the field `slot0`; the
  2-element forwarding plist `[old slot0, copy]` is the constructor
  `Slot0.fwd`.  The remaining object slots `ADDR_OBJ(obj)[1..]` are `slots`,
  with `none` for a C null pointer.
* `IS_MUTABLE_OBJ` / `IS_COPYABLE_OBJ` on a positional object dispatch to the
  user-level filters (external collaborators); they are modelled by the
  oracle fields `mutbl` / `copyable` carried by the cell, and
  `RESET_FILTER_OBJ(copy, IsMutableObjFilt)` by clearing `mutbl`.
* `ErrorQuit`, a missing dispatch-table entry, and C undefined behaviour are
  all modelled by `none`; the fuel parameter also yields `none` when
  exhausted, so every `some` result corresponds to a real terminating run.
-/

namespace GapObjects

/-- Base type tags relevant to the copy engine: the constant range
`FIRST_CONSTANT_TNUM .. LAST_CONSTANT_TNUM` (dispatching to
`CopyObjConstant`/`CleanObjConstant`) and `T_POSOBJ` (dispatching to
`CopyObjPosObj`/`CleanObjPosObj`, with the `+COPYING` variants
`CopyObjPosObjCopy`/`CleanObjPosObjCopy`). -/
inductive TNum where
  | constant : TNum
  | posobj : TNum
deriving DecidableEq

/-- The value stored in `ADDR_OBJ(obj)[0]`: either the type descriptor
(an opaque handle, modelled by a `Nat`), or the 2-element forwarding plist
created by `CopyObjPosObj` whose element 1 is the saved previous value of
the slot and whose element 2 is the handle of the in-progress copy. -/
inductive Slot0 where
  | desc : Nat → Slot0
  | fwd : Slot0 → Nat → Slot0
deriving DecidableEq

/-- A heap bag.  `copying` models the `+COPYING` tag offset, `mutbl` and
`copyable` the external `IS_MUTABLE_OBJ`/`IS_COPYABLE_OBJ` filters, `slot0`
the descriptor slot `ADDR_OBJ(obj)[0]`, and `slots` the subobject slots
`ADDR_OBJ(obj)[1..SIZE_OBJ/sizeof(Obj)-1]` (`none` = C null). -/
structure Cell where
  tnum : TNum
  copying : Bool
  mutbl : Bool
  copyable : Bool
  slot0 : Slot0
  slots : List (Option Nat)
deriving DecidableEq

/-- Global state of the copy engine: the heap (a bag handle is an index into
the list; `NewBag` appends) and the thread-scoped session pointer
`TLS->copiedObjs`, which `CopyObj` resets to `NULL` (`none`) at the start and
end of every top-level copy. -/
structure State where
  heap : List Cell
  copiedObjs : Option Nat
deriving DecidableEq

/-- Overwrite the heap cell of bag `i` (a slot/tag store through
`ADDR_OBJ`/`RetypeBag`). -/
def setCell (st : State) (i : Nat) (c : Cell) : State :=
  ⟨st.heap.set i c, st.copiedObjs⟩

/-- Write subobject slot `k` of a cell (`ADDR_OBJ(copy)[k+1] = v`). -/
def setSlot (c : Cell) (k : Nat) (v : Option Nat) : Cell :=
  { c with slots := c.slots.set k v }

/-- The combined effect, on the original, of installing the forwarding plist
(`ADDR_OBJ(obj)[0] = tmp` where `tmp = [old slot0, copy]`) and of
`RetypeBag(obj, TNUM_OBJ(obj) + COPYING)`. -/
def markCell (c : Cell) (cp : Nat) : Cell :=
  { c with copying := true, slot0 := Slot0.fwd c.slot0 cp }

/-- The fresh bag made by `CopyObjPosObj`: `NewBag(TNUM_OBJ(obj), SIZE_OBJ(obj))`
(same tag, zero-initialised slots), then `ADDR_OBJ(copy)[0] = ADDR_OBJ(obj)[0]`,
and, when `mut` is false, `CALL_2ARGS(RESET_FILTER_OBJ, copy, IsMutableObjFilt)`
(modelled as clearing `mutbl`). -/
def newCopyCell (c : Cell) (mutArg : Bool) : Cell :=
  { tnum := c.tnum, copying := false, mutbl := mutArg && c.mutbl,
    copyable := c.copyable, slot0 := c.slot0,
    slots := List.replicate c.slots.length none }

mutual

/-- `COPY_OBJ(obj, mutArg)`: dispatch through `CopyObjFuncs[TNUM_OBJ(obj)]`.
Constant tags dispatch to `CopyObjConstant` (return `obj`); `T_POSOBJ`
dispatches to `CopyObjPosObj` (immutability early-return, fatal error on a
mutable non-copyable object, fresh bag, forwarding plist in slot 0, retag to
`+COPYING`, then the subvalue loop); `T_POSOBJ + COPYING` dispatches to
`CopyObjPosObjCopy` (`return ELM_PLIST(ADDR_OBJ(obj)[0], 2)`).  A constant
tag with the `+COPYING` offset has no installed table entry (fatal), and
`ELM_PLIST` on a descriptor is undefined: both are `none`.  The first
argument is fuel; exhaustion yields `none`. -/
def COPY_OBJ : Nat → State → Nat → Bool → Option (State × Nat)
  | 0, _, _, _ => none
  | f+1, st, obj, mutArg =>
    match st.heap[obj]? with
    | none => none
    | some c =>
      match c.tnum, c.copying with
      | TNum.constant, false => some (st, obj)
      | TNum.constant, true => none
      | TNum.posobj, true =>
        match c.slot0 with
        | Slot0.fwd _ cp => some (st, cp)
        | Slot0.desc _ => none
      | TNum.posobj, false =>
        if c.mutbl = false then some (st, obj)
        else if c.copyable = false then none
        else
          let cpId := st.heap.length
          let st1 : State := ⟨st.heap ++ [newCopyCell c mutArg], st.copiedObjs⟩
          let st2 := setCell st1 obj (markCell c cpId)
          match copySlots f st2 obj cpId mutArg 0 with
          | none => none
          | some st3 => some (st3, cpId)

/-- The subvalue loop of `CopyObjPosObj`:
`for (i = 1; i < SIZE_OBJ(obj)/sizeof(Obj); i++) if (ADDR_OBJ(obj)[i] != 0)
{ tmp = COPY_OBJ(ADDR_OBJ(obj)[i], mutArg); ADDR_OBJ(copy)[i] = tmp; }`.
`k` is the loop index shifted by one (slot list position), `src` the
original, `cp` the copy; slots and sizes are re-read from the current state
at each iteration, as the C loop does. -/
def copySlots : Nat → State → Nat → Nat → Bool → Nat → Option State
  | 0, _, _, _, _, _ => none
  | f+1, st, src, cp, mutArg, k =>
    match st.heap[src]? with
    | none => none
    | some c =>
      match c.slots[k]? with
      | none => some st
      | some none => copySlots f st src cp mutArg (k+1)
      | some (some q) =>
        match COPY_OBJ f st q mutArg with
        | none => none
        | some (st', v) =>
          match st'.heap[cp]? with
          | none => none
          | some cc => copySlots f (setCell st' cp (setSlot cc k (some v))) src cp mutArg (k+1)

end

mutual

/-- `CLEAN_OBJ(obj)`: dispatch through `CleanObjFuncs[TNUM_OBJ(obj)]`.
Constant tags dispatch to `CleanObjConstant` and `T_POSOBJ` to
`CleanObjPosObj`, both no-ops; `T_POSOBJ + COPYING` dispatches to
`CleanObjPosObjCopy`, which restores `ADDR_OBJ(obj)[0]` from element 1 of
the forwarding plist, retags with `TNUM_OBJ(obj) - COPYING`, and recurses
into the subvalues. -/
def CLEAN_OBJ : Nat → State → Nat → Option State
  | 0, _, _ => none
  | f+1, st, obj =>
    match st.heap[obj]? with
    | none => none
    | some c =>
      match c.tnum, c.copying with
      | TNum.constant, false => some st
      | TNum.constant, true => none
      | TNum.posobj, false => some st
      | TNum.posobj, true =>
        match c.slot0 with
        | Slot0.desc _ => none
        | Slot0.fwd orig _ =>
          cleanSlots f (setCell st obj { c with copying := false, slot0 := orig }) obj 0

/-- The subvalue loop of `CleanObjPosObjCopy`:
`for (i = 1; i < SIZE_OBJ(obj)/sizeof(Obj); i++) if (ADDR_OBJ(obj)[i] != 0)
CLEAN_OBJ(ADDR_OBJ(obj)[i]);`. -/
def cleanSlots : Nat → State → Nat → Nat → Option State
  | 0, _, _, _ => none
  | f+1, st, src, k =>
    match st.heap[src]? with
    | none => none
    | some c =>
      match c.slots[k]? with
      | none => some st
      | some none => cleanSlots f st src (k+1)
      | some (some q) =>
        match CLEAN_OBJ f st q with
        | none => none
        | some st' => cleanSlots f st' src (k+1)

end

/-- `CopyObj(obj, mutArg)` (objects.c:325): reset `TLS->copiedObjs`, make the
copy with `COPY_OBJ`, clean up the marks with `CLEAN_OBJ` on the original,
reset `TLS->copiedObjs` again, and return the copy. -/
def CopyObj (f : Nat) (st : State) (obj : Nat) (mutArg : Bool) : Option (State × Nat) :=
  let st0 : State := ⟨st.heap, none⟩
  match COPY_OBJ f st0 obj mutArg with
  | none => none
  | some (st1, new) =>
    match CLEAN_OBJ f st1 obj with
    | none => none
    | some st2 => some (⟨st2.heap, none⟩, new)

/-- Decidable form of the invariant on the input heap: no bag anywhere
carries the `+COPYING` tag offset. -/
def noMarks (st : State) : Bool :=
  st.heap.all fun c => !c.copying

/-- Decidable form of "a well-formed object graph": every subobject slot of
every bag references a bag that exists on the heap. -/
def closedRefs (st : State) : Bool :=
  st.heap.all fun c => c.slots.all fun s =>
    match s with
    | none => true
    | some q => decide (q < st.heap.length)

/-! ### Region ownership and identity exchange
(`FuncSWITCH_OBJ`, `FuncFORCE_SWITCH_OBJ`, `FuncCLONE_OBJ`). -/

/-- A GAP `Obj` argument as the exchange/clone entry points see it: an
immediate small integer (`IS_INTOBJ`), an immediate finite-field element
(`IS_FFE`), or a reference to a heap bag (a master-pointer index). -/
inductive GObj where
  | intObj : Int → GObj
  | ffe : Nat → GObj
  | bag : Nat → GObj
deriving DecidableEq

/-- The master-pointer contents of a bag as used by the exchange primitives:
`PTR_BAG` (the data-area pointer, opaque) and `DS_BAG` (the region pointer,
`none` modelling the `NULL` region of public objects). -/
structure BagRef where
  ptr : Nat
  ds : Option Nat
deriving DecidableEq

/-- Result of `FuncSWITCH_OBJ`/`FuncFORCE_SWITCH_OBJ`.  `intErr`/`ffeErr`
are the recoverable `ErrorReturnVoid` paths ("... cannot be switched"),
which leave the bag table unchanged and then return 0; `regionErr1`/
`regionErr2` are the fatal `ErrorQuit` region-ownership failures ("Cannot
write to first/second object's region"); `ok` carries the updated bag
table; `invalid` models dereferencing an absent bag. -/
inductive SwitchRes where
  | intErr : List BagRef → SwitchRes
  | ffeErr : List BagRef → SwitchRes
  | regionErr1 : SwitchRes
  | regionErr2 : SwitchRes
  | invalid : SwitchRes
  | ok : List BagRef → SwitchRes
deriving DecidableEq

/-- `FuncSWITCH_OBJ(self, obj1, obj2)` (objects.c:1617).  `owners r` is the
`owner` field of region `r` (`some t` = the thread `t`, `none` = no owning
thread), and `tls` is the calling thread's `TLS`; `ds->owner != TLS` is
`owners r ≠ some tls`.  The bag table `bags` maps a bag handle to its
master-pointer contents. -/
def FuncSWITCH_OBJ (owners : Nat → Option Nat) (tls : Nat)
    (bags : List BagRef) (obj1 obj2 : GObj) : SwitchRes :=
  match obj1, obj2 with
  | GObj.intObj _, _ => SwitchRes.intErr bags
  | _, GObj.intObj _ => SwitchRes.intErr bags
  | GObj.ffe _, _ => SwitchRes.ffeErr bags
  | _, GObj.ffe _ => SwitchRes.ffeErr bags
  | GObj.bag b1, GObj.bag b2 =>
    match bags[b1]?, bags[b2]? with
    | some r1, some r2 =>
      match r1.ds with
      | none => SwitchRes.regionErr1
      | some ds1 =>
        if owners ds1 ≠ some tls then SwitchRes.regionErr1
        else
          match r2.ds with
          | none => SwitchRes.regionErr2
          | some ds2 =>
            if owners ds2 ≠ some tls then SwitchRes.regionErr2
            else
              SwitchRes.ok ((bags.set b2 ⟨r1.ptr, r1.ds⟩).set b1 ⟨r2.ptr, r2.ds⟩)
    | _, _ => SwitchRes.invalid

/-- `FuncFORCE_SWITCH_OBJ(self, obj1, obj2)` (objects.c:1660): identical to
`FuncSWITCH_OBJ` except that the region checks are `ds && ds->owner != TLS`,
so a `NULL` (public) region passes, while a non-`NULL` region must still be
owned by the calling thread. -/
def FuncFORCE_SWITCH_OBJ (owners : Nat → Option Nat) (tls : Nat)
    (bags : List BagRef) (obj1 obj2 : GObj) : SwitchRes :=
  match obj1, obj2 with
  | GObj.intObj _, _ => SwitchRes.intErr bags
  | _, GObj.intObj _ => SwitchRes.intErr bags
  | GObj.ffe _, _ => SwitchRes.ffeErr bags
  | _, GObj.ffe _ => SwitchRes.ffeErr bags
  | GObj.bag b1, GObj.bag b2 =>
    match bags[b1]?, bags[b2]? with
    | some r1, some r2 =>
      if h1 : r1.ds.isSome then
        if owners (r1.ds.get h1) ≠ some tls then SwitchRes.regionErr1
        else
          if h2 : r2.ds.isSome then
            if owners (r2.ds.get h2) ≠ some tls then SwitchRes.regionErr2
            else SwitchRes.ok ((bags.set b2 ⟨r1.ptr, r1.ds⟩).set b1 ⟨r2.ptr, r2.ds⟩)
          else SwitchRes.ok ((bags.set b2 ⟨r1.ptr, r1.ds⟩).set b1 ⟨r2.ptr, r2.ds⟩)
      else
        if h2 : r2.ds.isSome then
          if owners (r2.ds.get h2) ≠ some tls then SwitchRes.regionErr2
          else SwitchRes.ok ((bags.set b2 ⟨r1.ptr, r1.ds⟩).set b1 ⟨r2.ptr, r2.ds⟩)
        else SwitchRes.ok ((bags.set b2 ⟨r1.ptr, r1.ds⟩).set b1 ⟨r2.ptr, r2.ds⟩)
    | _, _ => SwitchRes.invalid

/-- Result of `FuncCLONE_OBJ`.  `intErr`/`ffeErr` are the recoverable
`ErrorReturnVoid` paths ("small integers / finite field elements cannot be
cloned"), carrying the unchanged state; `invalid` models undefined behaviour
(`ResizeBag`/`RetypeBag`/`PTR_BAG` applied to an immediate value or to an
absent bag, or a failing inner copy); `ok` carries the state after the
shallow clone. -/
inductive CloneRes where
  | intErr : State → CloneRes
  | ffeErr : State → CloneRes
  | invalid : CloneRes
  | ok : State → CloneRes
deriving DecidableEq

/-- `IS_MUTABLE_OBJ` as dispatched through `IsMutableObjFuncs`: immediates
and constant tags answer through `IsMutableObjNot` (false); `T_POSOBJ`
dispatches to the external filter (the `mutbl` oracle field); a `+COPYING`
tag has no installed entry (`none`). -/
def IS_MUTABLE_OBJ (st : State) (o : GObj) : Option Bool :=
  match o with
  | GObj.intObj _ => some false
  | GObj.ffe _ => some false
  | GObj.bag i =>
    match st.heap[i]? with
    | none => none
    | some c =>
      match c.tnum, c.copying with
      | TNum.constant, false => some false
      | TNum.posobj, false => some c.mutbl
      | _, true => none

/-- `FuncCLONE_OBJ(self, dst, src)` (objects.c:1556).  Only `src` is tested
for immediacy; the check on `dst` is commented out in the source.  If `src`
is mutable it is first structurally copied with `CopyObj(src, 1)`; then
`dst` is resized to `src`'s size, retagged to `src`'s tag and the bag
contents are copied word by word — modelled as replacing `dst`'s cell by
`src`'s cell wholesale.  Applying this to an immediate `dst` dereferences a
tag-encoded value (`invalid`). -/
def FuncCLONE_OBJ (f : Nat) (st : State) (dst src : GObj) : CloneRes :=
  match src with
  | GObj.intObj _ => CloneRes.intErr st
  | GObj.ffe _ => CloneRes.ffeErr st
  | GObj.bag s =>
    match IS_MUTABLE_OBJ st src with
    | none => CloneRes.invalid
    | some isMut =>
      match (if isMut then CopyObj f st s true else some (st, s)) with
      | none => CloneRes.invalid
      | some (st1, s1) =>
        match dst with
        | GObj.intObj _ => CloneRes.invalid
        | GObj.ffe _ => CloneRes.invalid
        | GObj.bag d =>
          match st1.heap[s1]? with
          | none => CloneRes.invalid
          | some cs =>
            if d < st1.heap.length then CloneRes.ok (setCell st1 d cs)
            else CloneRes.invalid

/-! ### The recursive print engine
(`PrintObj`, `IS_MARKABLE`/`IS_MARKED`, `MAXPRINTDEPTH`, `PrintPathFuncs`).

`SyIsIntr()` (the interrupt check) and `CheckRead` (region read access) are
external collaborators; the model takes the no-interrupt, all-readable path.
The per-type print bodies (`PrintObjFuncs`) and path printers
(`PrintPathFuncs`) are likewise external: the model gives every object a
body that emits a `body` token and, for an object in the markable tag
range, recursively prints its subobjects through `PrintObj`, recording the
running selector in `PrintObjIndex` as the record/list printers do. -/

/-- `#define MAXPRINTDEPTH 1024L` (objects.c:829). -/
def MAXPRINTDEPTH : Nat := 1024

/-- The per-object data the printer consults: whether the object's tag lies
in the markable range `FIRST_RECORD_TNUM .. LAST_LIST_TNUM` (`IS_MARKABLE`),
and the subobjects its print body prints. -/
structure PCell where
  markable : Bool
  subs : List Nat
deriving DecidableEq

/-- The file-global printer state: `PrintObjThiss`, `PrintObjIndices`
(arrays of `MAXPRINTDEPTH` entries, modelled as functions), `PrintObjThis`,
`PrintObjIndex`, `PrintObjDepth` and `LastPV`. -/
structure PrState where
  thiss : Nat → Nat
  indices : Nat → Nat
  this : Nat
  index : Nat
  depth : Nat
  lastPV : Nat

/-- Output actions of a print run: `body o` marks dispatch into object `o`'s
print body, `tilde` is `Pr("~")`, `sel o i` is the call
`PrintPathFuncs[TNUM_OBJ(o)](o, i)` emitting the selector that reaches the
`i`-th subobject of `o`, and `depthMsg` is the
"printing stopped, too many recursion levels!" notice. -/
inductive PTok where
  | body : Nat → PTok
  | tilde : PTok
  | sel : Nat → Nat → PTok
  | depthMsg : PTok
deriving DecidableEq

/-- `IS_MARKABLE(obj)` (objects.c:851): the tag lies between
`FIRST_RECORD_TNUM` and `LAST_LIST_TNUM`. -/
def IS_MARKABLE (G : Nat → PCell) (o : Nat) : Bool :=
  (G o).markable

/-- `IS_MARKED(obj)` (objects.c:854): markable and present in
`PrintObjThiss[0 .. PrintObjDepth-2]`. -/
def IS_MARKED (G : Nat → PCell) (st : PrState) (o : Nat) : Bool :=
  IS_MARKABLE G o &&
    (List.range (st.depth - 1)).any fun i => st.thiss i == o

/-- The path loop of the marked branch:
`for (i = 0; PrintObjThis != PrintObjThiss[i]; i++)
   PrintPathFuncs[...](PrintObjThiss[i], PrintObjIndices[i]);`.
The C loop is unbounded and relies on the current object occurring in the
array; the model bounds it by fuel `k` (running past every occurrence would
read unspecified memory, `none`). -/
def pathToks (st : PrState) : Nat → Nat → Option (List PTok)
  | 0, _ => none
  | k+1, i =>
    if st.thiss i == st.this then some []
    else
      match pathToks st k (i+1) with
      | none => none
      | some ts => some (PTok.sel (st.thiss i) (st.indices i) :: ts)

/-- The state updates of `PrintObj` before the dispatch: save/compute
`lastPV` and `fromview`, set `LastPV = 1`, record the superobject in the
stack arrays when `obj` is a subobject, then push (`PrintObjDepth += 1`,
`PrintObjThis = obj`, `PrintObjIndex = 0`) unless `fromview`. -/
def prPush (st : PrState) (obj : Nat) (fromview : Bool) : PrState :=
  let st2 :=
    if !fromview && 0 < st.depth then
      { st with thiss := Function.update st.thiss (st.depth - 1) st.this,
                indices := Function.update st.indices (st.depth - 1) st.index }
    else st
  if !fromview then
    { st2 with depth := st2.depth + 1, this := obj, index := 0 }
  else st2

/-- The state updates of `PrintObj` after the dispatch: pop
(`PrintObjDepth -= 1`, restore `PrintObjThis`/`PrintObjIndex` from the
arrays when still inside a superobject) unless `fromview`, then restore
`LastPV`. -/
def prPop (st : PrState) (fromview : Bool) (lastPV : Nat) : PrState :=
  let st5 := if !fromview then { st with depth := st.depth - 1 } else st
  let st6 :=
    if !fromview && 0 < st5.depth then
      { st5 with this := st5.thiss (st5.depth - 1),
                 index := st5.indices (st5.depth - 1) }
    else st5
  { st6 with lastPV := lastPV }

mutual

/-- `PrintObj(obj)` (objects.c:898), on the no-interrupt, readable path:
compute `fromview`, mark/remember the superobject and push, then — if the
(now current) object is not marked and the depth is below `MAXPRINTDEPTH` —
dispatch to its print body; if the depth bound is hit, print the
depth-exceeded notice instead; if the object is marked, print `~` and the
selector path from `PrintObjThiss[0]` up to the first stack occurrence of
the object; finally pop and restore `LastPV`.  Fuel bounds the recursion
(`none` = ran out). -/
def PrintObj (G : Nat → PCell) : Nat → PrState → Nat → Option (PrState × List PTok)
  | 0, _, _ => none
  | f+1, st, obj =>
    let lastPV := st.lastPV
    let fromview := lastPV == 2 && obj == st.this
    let st3 := prPush { st with lastPV := 1 } obj fromview
    match
      (if IS_MARKED G st3 st3.this = false then
        if st3.depth < MAXPRINTDEPTH then
          match printBody G f st3 st3.this with
          | none => none
          | some (st4, ts) => some (st4, ts)
        else some (st3, [PTok.depthMsg])
      else
        match pathToks st3 st3.depth 0 with
        | none => none
        | some ts => some (st3, PTok.tilde :: ts)) with
    | none => none
    | some (st4, ts) => some (prPop st4 fromview lastPV, ts)

/-- The dispatched print body `(*PrintObjFuncs[TNUM_OBJ(obj)])(obj)` —
an external collaborator, modelled minimally: emit a `body` token and, for
a markable object, print each subobject through `PrintObj`, storing the
selector index in `PrintObjIndex` first (as the record and list printers
do). -/
def printBody (G : Nat → PCell) : Nat → PrState → Nat → Option (PrState × List PTok)
  | 0, _, _ => none
  | f+1, st, obj =>
    if IS_MARKABLE G obj then
      match printSubs G f st 1 (G obj).subs with
      | none => none
      | some (st', ts) => some (st', PTok.body obj :: ts)
    else some (st, [PTok.body obj])

/-- The subobject loop of a modelled print body: for the `k`-th subobject,
set `PrintObjIndex = k` and call `PrintObj` on it. -/
def printSubs (G : Nat → PCell) : Nat → PrState → Nat → List Nat → Option (PrState × List PTok)
  | 0, _, _, _ => none
  | _+1, st, _, [] => some (st, [])
  | f+1, st, k, q :: qs =>
    match PrintObj G f { st with index := k } q with
    | none => none
    | some (st', ts) =>
      match printSubs G f st' (k+1) qs with
      | none => none
      | some (st'', ts') => some (st'', ts ++ ts')

end

/-! ### The save/load protocol
(`SaveComObj`/`LoadComObj`, `SavePosObj`/`LoadPosObj`,
`SaveDatObj`/`LoadDatObj`).

The outer framer (saveload.c) has already written/read the tag and bag
size; the bodies only emit/consume a flat stream of `SaveSubObj`
(sub-object references, which the framer resolves so that sharing is
preserved) and `SaveUInt` items. -/

/-- One item of the serialization stream: a sub-object reference
(`SaveSubObj`/`LoadSubObj`) or a fixed-width unsigned integer
(`SaveUInt`/`LoadUInt`). -/
inductive SaveTok where
  | ref : Nat → SaveTok
  | uint : Nat → SaveTok
deriving DecidableEq

/-- A component object as the save/load bodies see it: the descriptor
`TYPE_COMOBJ` and the precord fields, each a pair of a record-name id
(`GET_RNAM_PREC`) and a sub-object handle (`GET_ELM_PREC`). -/
structure ComObjV where
  typ : Nat
  prec : List (Nat × Nat)
deriving DecidableEq

/-- A positional object: the descriptor `TYPE_POSOBJ` and the slots
`ADDR_OBJ(posobj)[1 .. SIZE/sizeof(Obj) - 1]`. -/
structure PosObjV where
  typ : Nat
  elms : List Nat
deriving DecidableEq

/-- A raw-data object: the descriptor `TYPE_DATOBJ` and the payload as the
fixed-width words `((UInt*)ADDR_OBJ(datobj))[1 ..]`. -/
structure DatObjV where
  typ : Nat
  words : List Nat
deriving DecidableEq

/-- `SaveComObj` (objects.c:1415): descriptor handle, field count, then
each (record-name, value) pair. -/
def SaveComObj (x : ComObjV) : List SaveTok :=
  SaveTok.ref x.typ :: SaveTok.uint x.prec.length ::
    (x.prec.flatMap fun p => [SaveTok.uint p.1, SaveTok.ref p.2])

/-- `SavePosObj` (objects.c:1435): descriptor handle, then each slot. -/
def SavePosObj (x : PosObjV) : List SaveTok :=
  SaveTok.ref x.typ :: x.elms.map SaveTok.ref

/-- `SaveDatObj` (objects.c:1455): descriptor handle, then the payload as a
sequence of fixed-width words. -/
def SaveDatObj (x : DatObjV) : List SaveTok :=
  SaveTok.ref x.typ :: x.words.map SaveTok.uint

/-- The field loop of `LoadComObj`: for `i = 1 .. len`,
`SET_RNAM_PREC(comobj, i, LoadUInt()); SET_ELM_PREC(comobj, i, LoadSubObj());`. -/
def loadPrecFields : Nat → List SaveTok → Option (List (Nat × Nat) × List SaveTok)
  | 0, s => some ([], s)
  | n+1, SaveTok.uint r :: SaveTok.ref e :: s =>
    match loadPrecFields n s with
    | none => none
    | some (l, s') => some ((r, e) :: l, s')
  | _+1, _ => none

/-- `LoadComObj` (objects.c:1475): read the descriptor, read the length and
`SET_LEN_PREC`, then read each (record-name, value) pair, into a cell whose
tag and size the framer has already set. -/
def LoadComObj : List SaveTok → Option (ComObjV × List SaveTok)
  | SaveTok.ref t :: SaveTok.uint len :: s =>
    match loadPrecFields len s with
    | none => none
    | some (l, s') => some (⟨t, l⟩, s')
  | _ => none

/-- The slot loop of `LoadPosObj`: `ADDR_OBJ(posobj)[i] = LoadSubObj()`. -/
def loadPosElms : Nat → List SaveTok → Option (List Nat × List SaveTok)
  | 0, s => some ([], s)
  | n+1, SaveTok.ref e :: s =>
    match loadPosElms n s with
    | none => none
    | some (l, s') => some (e :: l, s')
  | _+1, _ => none

/-- `LoadPosObj` (objects.c:1495): read the descriptor, then one sub-object
per slot; the slot count `SIZE_OBJ(posobj)/sizeof(Obj) - 1` comes from the
destination cell, whose size the framer pre-set (passed as `len`). -/
def LoadPosObj (len : Nat) (s : List SaveTok) : Option (PosObjV × List SaveTok) :=
  match s with
  | SaveTok.ref t :: s' =>
    match loadPosElms len s' with
    | none => none
    | some (l, s'') => some (⟨t, l⟩, s'')
  | _ => none

/-- The word loop of `LoadDatObj`: `*ptr++ = LoadUInt()`. -/
def loadDatWords : Nat → List SaveTok → Option (List Nat × List SaveTok)
  | 0, s => some ([], s)
  | n+1, SaveTok.uint w :: s =>
    match loadDatWords n s with
    | none => none
    | some (l, s') => some (w :: l, s')
  | _+1, _ => none

/-- `LoadDatObj` (objects.c:1515): read the descriptor, then one fixed-width
word per payload word; the word count comes from the destination cell's
pre-set size (passed as `len`). -/
def LoadDatObj (len : Nat) (s : List SaveTok) : Option (DatObjV × List SaveTok) :=
  match s with
  | SaveTok.ref t :: s' =>
    match loadDatWords len s' with
    | none => none
    | some (l, s'') => some (⟨t, l⟩, s'')
  | _ => none

/-! ### `SET_TYPE_COMOBJ` -/

/-- The type tags `SET_TYPE_COMOBJ_Handler` switches on: plain record
`T_PREC`, component object `T_COMOBJ`, atomic record `T_AREC`, atomic
component object `T_ACOMOBJ`, and every other tag. -/
inductive CTnum where
  | T_PREC : CTnum
  | T_COMOBJ : CTnum
  | T_AREC : CTnum
  | T_ACOMOBJ : CTnum
  | other : Nat → CTnum
deriving DecidableEq

/-- An object as `SET_TYPE_COMOBJ_Handler` sees it: its tag, its type
descriptor (`TYPE_COMOBJ`, stored in the first slot) and its remaining
contents (opaque). -/
structure CObj where
  tnum : CTnum
  typ : Nat
  contents : List Nat
deriving DecidableEq

/-- `SET_TYPE_COMOBJ_Handler(self, obj, kind)` (objects.c:1184): on
`T_PREC`/`T_COMOBJ`, store the kind in `TYPE_COMOBJ(obj)` and retag to
`T_COMOBJ`; on `T_AREC`/`T_ACOMOBJ`, `SET_TYPE_OBJ(obj, kind)` (dispatching
to the atomic-object table installed in aobjects.c, an external
collaborator modelled as storing the kind) and retag to `T_ACOMOBJ`;
on every other tag the `switch` has no case and the handler just returns
`obj`. -/
def SET_TYPE_COMOBJ_Handler (obj : CObj) (kind : Nat) : CObj :=
  match obj.tnum with
  | CTnum.T_PREC => { obj with typ := kind, tnum := CTnum.T_COMOBJ }
  | CTnum.T_COMOBJ => { obj with typ := kind, tnum := CTnum.T_COMOBJ }
  | CTnum.T_AREC => { obj with typ := kind, tnum := CTnum.T_ACOMOBJ }
  | CTnum.T_ACOMOBJ => { obj with typ := kind, tnum := CTnum.T_ACOMOBJ }
  | CTnum.other _ => obj

/-! ### Invariants used to reason about the copy/clean engine -/

/-- Bag `i` currently carries the `+COPYING` tag offset. -/
def markedIn (st : State) (i : Nat) : Prop :=
  ∃ c, st.heap[i]? = some c ∧ c.copying = true

/-- Invariant of the copy phase, relative to the heap size `L` at the start
of the top-level copy.  Original bags (`< L`) only reference original bags,
and if marked carry a forwarding record pointing at a bag allocated during
this copy; bags allocated during the copy (`≥ L`) are never marked. -/
def WfC (L : Nat) (st : State) : Prop :=
  L ≤ st.heap.length ∧
  ∀ j c, st.heap[j]? = some c →
    (j < L → (∀ (k q : Nat), c.slots[k]? = some (some q) → q < L) ∧
      (c.copying = true → c.tnum = TNum.posobj ∧ c.mutbl = true ∧
        ∃ s cp, c.slot0 = Slot0.fwd s cp ∧ L ≤ cp ∧ cp < st.heap.length)) ∧
    (L ≤ j → c.copying = false)

/-- How a single original cell can change during the copy phase: it is
untouched, or (if an unmarked mutable copyable positional object) it gains a
forwarding record to a bag allocated during the copy. -/
def evolCell (L len' : Nat) (c c' : Cell) : Prop :=
  c' = c ∨
    (c.copying = false ∧ c.tnum = TNum.posobj ∧ c.mutbl = true ∧
      c.copyable = true ∧ ∃ cp, L ≤ cp ∧ cp < len' ∧ c' = markCell c cp)

/-- Reachability along subobject slots through bags currently carrying the
`+COPYING` offset (the paths the clean pass can follow). -/
inductive Reach (st : State) : Nat → Nat → Prop where
  | refl : ∀ i, Reach st i i
  | step : ∀ i q j c, st.heap[i]? = some c → c.copying = true →
      (∃ k : Nat, c.slots[k]? = some (some q)) → Reach st q j → Reach st i j

/-- What `COPY_OBJ` guarantees about the bag `v` it returned for subobject
`q`: either `q` is marked and its forwarding record designates `v` as its
copy, or `q` was immutable and was returned unchanged. -/
def copyRes (st : State) (q v : Nat) : Prop :=
  ∃ cq, st.heap[q]? = some cq ∧
    ((cq.copying = true ∧ ∃ s, cq.slot0 = Slot0.fwd s v) ∨
     (v = q ∧ cq.copying = false ∧ (cq.tnum = TNum.constant ∨ cq.mutbl = false)))

/-- How the whole heap evolves across one (nested) copy-phase call rooted at
`root`: it only grows; bags allocated before the call but during the
session (`≥ L`, other than the copy `exempt` currently being filled) are
untouched; original bags evolve by `evolCell`; and any bag newly marked by
the call is reachable from `root` through marked bags afterwards. -/
def HeapEvol (L : Nat) (exempt : Option Nat) (st st' : State) (root : Nat) : Prop :=
  st.heap.length ≤ st'.heap.length ∧
  (∀ j, L ≤ j → j < st.heap.length → exempt ≠ some j → st'.heap[j]? = st.heap[j]?) ∧
  (∀ j c, j < L → st.heap[j]? = some c →
    ∃ c', st'.heap[j]? = some c' ∧ evolCell L st'.heap.length c c') ∧
  (∀ j, markedIn st' j → ¬ markedIn st j → Reach st' root j)

/-- Result specification of `COPY_OBJ st obj`: behaviour on an already
marked bag, on an immutable bag, and on an unmarked mutable positional
object (fresh copy at the old end of the heap, original marked, every
non-null subobject slot copied through `copyRes`). -/
def CopyResOut (st : State) (obj : Nat) (mutArg : Bool)
    (st' : State) (r : Nat) : Prop :=
  ∀ c, st.heap[obj]? = some c →
    (c.copying = true → st' = st ∧ ∃ s, c.slot0 = Slot0.fwd s r) ∧
    (c.copying = false → (c.tnum = TNum.constant ∨ c.mutbl = false) →
      st' = st ∧ r = obj) ∧
    (c.copying = false → c.tnum = TNum.posobj → c.mutbl = true →
      r = st.heap.length ∧
      st'.heap[obj]? = some (markCell c r) ∧
      ∃ cc, st'.heap[r]? = some cc ∧ cc.tnum = TNum.posobj ∧
        cc.copying = false ∧ cc.mutbl = (mutArg && c.mutbl) ∧
        cc.copyable = c.copyable ∧ cc.slot0 = c.slot0 ∧
        cc.slots.length = c.slots.length ∧
        (∀ (k q : Nat), c.slots[k]? = some (some q) →
          ∃ v, cc.slots[k]? = some (some v) ∧ copyRes st' q v))

/-- Result specification of the subvalue loop `copySlots st src cp _ k`:
the copy `cp` keeps its header fields, its slots below `k` are untouched,
and each non-null source slot at `k` or above is filled with a `copyRes`
value. -/
def SlotsOut (st : State) (src cp k : Nat) (st' : State) : Prop :=
  ∀ c cc, st.heap[src]? = some c → st.heap[cp]? = some cc →
    ∃ cc', st'.heap[cp]? = some cc' ∧ cc'.tnum = cc.tnum ∧
      cc'.copying = cc.copying ∧ cc'.mutbl = cc.mutbl ∧
      cc'.copyable = cc.copyable ∧ cc'.slot0 = cc.slot0 ∧
      cc'.slots.length = cc.slots.length ∧
      (∀ m : Nat, m < k → cc'.slots[m]? = cc.slots[m]?) ∧
      (∀ (m q : Nat), k ≤ m → c.slots[m]? = some (some q) →
        ∃ v, cc'.slots[m]? = some (some v) ∧ copyRes st' q v)

/-- The copy under construction has as many subobject slots as its source
(`NewBag` with the same `SIZE_OBJ`). -/
def SlotsLen (st : State) (src cp : Nat) : Prop :=
  ∀ c cc, st.heap[src]? = some c → st.heap[cp]? = some cc →
    cc.slots.length = c.slots.length

/-- Fuel sufficient for `PrintObj` starting at stack depth `d`, when no
print body has more than `S - 2` subobjects: the printer's recursion depth
is bounded by `MAXPRINTDEPTH`, not by the size of the object graph. -/
def printFuel (S d : Nat) : Nat :=
  S * (MAXPRINTDEPTH + 1 - d) + 1

/-- How the heap evolves across one (nested) clean-pass call: lengths are
unchanged; each bag is untouched or, if it carried a forwarding record, has
its first slot restored from the record and the `+COPYING` offset removed;
and every bag whose mark this pass removed had all its subobjects unmarked
by the time the pass returned (the clean pass never stops above a marked
subobject of a bag it cleaned). -/
def CleanEvol (st st' : State) : Prop :=
  st'.heap.length = st.heap.length ∧
  (∀ j : Nat, st'.heap[j]? = st.heap[j]? ∨
    ∃ c s cp, st.heap[j]? = some c ∧ c.copying = true ∧
      c.slot0 = Slot0.fwd s cp ∧
      st'.heap[j]? = some { c with copying := false, slot0 := s }) ∧
  (∀ (m : Nat) (c c' : Cell), st.heap[m]? = some c → st'.heap[m]? = some c' →
    c.copying = true → c'.copying = false →
    ∀ (k q : Nat), c.slots[k]? = some (some q) →
      ∀ cq', st'.heap[q]? = some cq' → cq'.copying = false)

/-! ## Theorems -/

/-- C10: for every object whose type tag is none of plain record
(`T_PREC`), component object (`T_COMOBJ`), atomic record (`T_AREC`) or
atomic component object (`T_ACOMOBJ`), the public `SET_TYPE_COMOBJ`
operation is a silent no-op: it returns the object with its tag, descriptor
and contents unchanged, and raises no error (the handler has no error path
at all: the `switch` simply has no matching case and the object is
returned). -/
theorem SET_TYPE_COMOBJ_other_noop (obj : CObj) (kind t : Nat)
    (h : obj.tnum = CTnum.other t) :
    SET_TYPE_COMOBJ_Handler obj kind = obj := by
  unfold SET_TYPE_COMOBJ_Handler
  rw [h]

/-- Witness for C10 at a concrete object with an unrelated tag. -/
theorem SET_TYPE_COMOBJ_other_noop_witness :
    (⟨CTnum.other 5, 7, [1, 2]⟩ : CObj).tnum = CTnum.other 5 ∧
    SET_TYPE_COMOBJ_Handler ⟨CTnum.other 5, 7, [1, 2]⟩ 9 = ⟨CTnum.other 5, 7, [1, 2]⟩ :=
  ⟨rfl, SET_TYPE_COMOBJ_other_noop ⟨CTnum.other 5, 7, [1, 2]⟩ 9 5 rfl⟩

theorem loadPrecFields_save (l : List (Nat × Nat)) (rest : List SaveTok) :
    loadPrecFields l.length
      ((l.flatMap fun p => [SaveTok.uint p.1, SaveTok.ref p.2]) ++ rest) =
      some (l, rest) := by
  induction l with
  | nil => rfl
  | cons p l ih =>
    have hs : (((p :: l).flatMap fun p => [SaveTok.uint p.1, SaveTok.ref p.2]) ++ rest)
        = SaveTok.uint p.1 :: SaveTok.ref p.2 ::
          ((l.flatMap fun p => [SaveTok.uint p.1, SaveTok.ref p.2]) ++ rest) := by
      simp [List.flatMap_cons]
    rw [List.length_cons, hs]
    simp only [loadPrecFields]
    rw [ih]

theorem loadPosElms_save (l : List Nat) (rest : List SaveTok) :
    loadPosElms l.length (l.map SaveTok.ref ++ rest) = some (l, rest) := by
  induction l with
  | nil => rfl
  | cons e l ih => simp [loadPosElms, ih]

theorem loadDatWords_save (l : List Nat) (rest : List SaveTok) :
    loadDatWords l.length (l.map SaveTok.uint ++ rest) = some (l, rest) := by
  induction l with
  | nil => rfl
  | cons w l ih => simp [loadDatWords, ih]

/-- C9: for each of the three structural kinds the load body reads back
exactly the fields the save body wrote, in the same order (component:
descriptor handle, field count, then each field-name/value pair;
positional: descriptor handle then each slot; raw-data: descriptor handle
then fixed-width words), so loading the saved stream of `x` into a cell of
the same pre-set tag and size (the slot/word count passed to the positional
and raw-data loaders) reconstructs an object structurally equal to `x`, and
consumes exactly the saved stream. -/
theorem saveload_roundtrip :
    (∀ (x : ComObjV) (rest : List SaveTok),
      LoadComObj (SaveComObj x ++ rest) = some (x, rest)) ∧
    (∀ (x : PosObjV) (rest : List SaveTok),
      LoadPosObj x.elms.length (SavePosObj x ++ rest) = some (x, rest)) ∧
    (∀ (x : DatObjV) (rest : List SaveTok),
      LoadDatObj x.words.length (SaveDatObj x ++ rest) = some (x, rest)) := by
  refine ⟨fun x rest => ?_, fun x rest => ?_, fun x rest => ?_⟩
  · simp [SaveComObj, LoadComObj, loadPrecFields_save x.prec rest]
  · simp [SavePosObj, LoadPosObj, loadPosElms_save x.elms rest]
  · simp [SaveDatObj, LoadDatObj, loadDatWords_save x.words rest]

/-- Counterexample to C4 as stated: a concrete pair of non-immediate
objects where the first object's region is owned by the calling thread
(thread 0) but the second one's is not, so "at least one of the two
regions is owned by the caller" holds; yet `SWITCH_OBJ` does not perform
the swap — it raises the region-ownership error for the second object. -/
theorem FuncSWITCH_OBJ_one_owner_insufficient :
    (fun r => if r = 0 then some 0 else some 1 : Nat → Option Nat) 0 = some 0 ∧
    FuncSWITCH_OBJ (fun r => if r = 0 then some 0 else some 1) 0
      [⟨10, some 0⟩, ⟨20, some 1⟩] (GObj.bag 0) (GObj.bag 1) =
      SwitchRes.regionErr2 := by
  exact ⟨rfl, rfl⟩

/-- C4, amended: the non-forcing `SWITCH_OBJ` performs the identity
exchange (heap-cell pointer and region pointer of both handles swapped
together) exactly when *both* objects' regions are non-`NULL` and owned by
the calling thread; it fails with the region-ownership error for the first
object whenever the first object's region is `NULL` or not owned by the
caller, and with the one for the second object whenever the first check
passes but the second object's region is `NULL` or not owned. -/
theorem FuncSWITCH_OBJ_spec (owners : Nat → Option Nat) (tls : Nat)
    (bags : List BagRef) (b1 b2 : Nat) (r1 r2 : BagRef)
    (h1 : bags[b1]? = some r1) (h2 : bags[b2]? = some r2) :
    (∀ ds1, r1.ds = some ds1 → owners ds1 = some tls →
      ∀ ds2, r2.ds = some ds2 → owners ds2 = some tls →
      FuncSWITCH_OBJ owners tls bags (GObj.bag b1) (GObj.bag b2) =
        SwitchRes.ok ((bags.set b2 ⟨r1.ptr, r1.ds⟩).set b1 ⟨r2.ptr, r2.ds⟩)) ∧
    ((r1.ds = none ∨ ∃ ds1, r1.ds = some ds1 ∧ owners ds1 ≠ some tls) →
      FuncSWITCH_OBJ owners tls bags (GObj.bag b1) (GObj.bag b2) =
        SwitchRes.regionErr1) ∧
    (∀ ds1, r1.ds = some ds1 → owners ds1 = some tls →
      (r2.ds = none ∨ ∃ ds2, r2.ds = some ds2 ∧ owners ds2 ≠ some tls) →
      FuncSWITCH_OBJ owners tls bags (GObj.bag b1) (GObj.bag b2) =
        SwitchRes.regionErr2) := by
  refine ⟨?_, ?_, ?_⟩
  · intro ds1 hds1 ho1 ds2 hds2 ho2
    simp [FuncSWITCH_OBJ, h1, h2, hds1, hds2, ho1, ho2]
  · rintro (hds1 | ⟨ds1, hds1, ho1⟩) <;>
      simp [FuncSWITCH_OBJ, h1, h2, hds1]
    intro h; exact absurd h ho1
  · intro ds1 hds1 ho1 hbad
    rcases hbad with hds2 | ⟨ds2, hds2, ho2⟩ <;>
      simp [FuncSWITCH_OBJ, h1, h2, hds1, ho1, hds2]
    intro h; exact absurd h ho2

/-- Witness for the amended C4 at concrete inputs: both regions owned by
the caller, so the exchange happens; and the two error situations. -/
theorem FuncSWITCH_OBJ_spec_witness :
    FuncSWITCH_OBJ (fun _ => some 0) 0 [⟨10, some 3⟩, ⟨20, some 4⟩]
      (GObj.bag 0) (GObj.bag 1) = SwitchRes.ok [⟨20, some 4⟩, ⟨10, some 3⟩] := by
  have h := (FuncSWITCH_OBJ_spec (fun _ => some 0) 0
    [⟨10, some 3⟩, ⟨20, some 4⟩] 0 1 ⟨10, some 3⟩ ⟨20, some 4⟩ rfl rfl).1
  exact h 3 rfl rfl 4 rfl rfl

/-- Counterexample to C5 as stated: the forcing variant still raises a
region-ownership error when an object's region is non-`NULL` and owned by
a different thread (here the second object's region is owned by thread 1
while the caller is thread 0), so it is not the case that the exchange is
performed "regardless of which thread owns either object's region". -/
theorem FuncFORCE_SWITCH_OBJ_not_unconditional :
    FuncFORCE_SWITCH_OBJ (fun _ => some 1) 0 [⟨10, none⟩, ⟨20, some 0⟩]
      (GObj.bag 0) (GObj.bag 1) = SwitchRes.regionErr2 := by
  rfl

/-- C5, amended: `FORCE_SWITCH_OBJ` relaxes the non-forcing check only for
`NULL` (public) regions: it performs the identity exchange whenever each of
the two objects' regions is either `NULL` or owned by the calling thread,
and still raises the region-ownership error whenever one of the regions is
non-`NULL` and not owned by the caller. -/
theorem FuncFORCE_SWITCH_OBJ_spec (owners : Nat → Option Nat) (tls : Nat)
    (bags : List BagRef) (b1 b2 : Nat) (r1 r2 : BagRef)
    (h1 : bags[b1]? = some r1) (h2 : bags[b2]? = some r2) :
    ((r1.ds = none ∨ ∃ ds1, r1.ds = some ds1 ∧ owners ds1 = some tls) →
      (r2.ds = none ∨ ∃ ds2, r2.ds = some ds2 ∧ owners ds2 = some tls) →
      FuncFORCE_SWITCH_OBJ owners tls bags (GObj.bag b1) (GObj.bag b2) =
        SwitchRes.ok ((bags.set b2 ⟨r1.ptr, r1.ds⟩).set b1 ⟨r2.ptr, r2.ds⟩)) ∧
    (∀ ds1, r1.ds = some ds1 → owners ds1 ≠ some tls →
      FuncFORCE_SWITCH_OBJ owners tls bags (GObj.bag b1) (GObj.bag b2) =
        SwitchRes.regionErr1) ∧
    ((r1.ds = none ∨ ∃ ds1, r1.ds = some ds1 ∧ owners ds1 = some tls) →
      ∀ ds2, r2.ds = some ds2 → owners ds2 ≠ some tls →
      FuncFORCE_SWITCH_OBJ owners tls bags (GObj.bag b1) (GObj.bag b2) =
        SwitchRes.regionErr2) := by
  refine ⟨?_, ?_, ?_⟩
  · rintro (hds1 | ⟨ds1, hds1, ho1⟩) <;> rintro (hds2 | ⟨ds2, hds2, ho2⟩) <;>
      simp [FuncFORCE_SWITCH_OBJ, h1, h2, hds1, hds2, *]
  · intro ds1 hds1 ho1
    simp [FuncFORCE_SWITCH_OBJ, h1, h2, hds1, ho1]
  · rintro (hds1 | ⟨ds1, hds1, ho1⟩) <;> intro ds2 hds2 ho2 <;>
      simp [FuncFORCE_SWITCH_OBJ, h1, h2, hds1, hds2, *]

/-- Witness for the amended C5 at concrete inputs: a public (`NULL` region)
object is exchanged with an owned object. -/
theorem FuncFORCE_SWITCH_OBJ_spec_witness :
    FuncFORCE_SWITCH_OBJ (fun _ => some 0) 0 [⟨10, none⟩, ⟨20, some 4⟩]
      (GObj.bag 0) (GObj.bag 1) = SwitchRes.ok [⟨20, some 4⟩, ⟨10, none⟩] := by
  have h := (FuncFORCE_SWITCH_OBJ_spec (fun _ => some 0) 0
    [⟨10, none⟩, ⟨20, some 4⟩] 0 1 ⟨10, none⟩ ⟨20, some 4⟩ rfl rfl).1
  exact h (Or.inl rfl) (Or.inr ⟨4, rfl, rfl⟩)

/-- Counterexample to C6 as stated: `CLONE_OBJ` only tests its *source* for
immediacy (the destination check is commented out in the source), so a call
with an immediate destination and a heap-object source does not raise the
designated recoverable error — it proceeds into the clone and applies
`ResizeBag`/`RetypeBag` to a tag-encoded value (undefined behaviour,
modelled `invalid`), rather than returning `intErr`/`ffeErr`. -/
theorem FuncCLONE_OBJ_immediate_dst_unchecked :
    FuncCLONE_OBJ 5 ⟨[⟨TNum.constant, false, false, false, Slot0.desc 0, []⟩], none⟩
      (GObj.intObj 3) (GObj.bag 0) = CloneRes.invalid := by
  rfl

/-- C6, amended: `CLONE_OBJ` raises the designated recoverable error and
leaves everything unchanged whenever its *source* is an immediate
(small-integer or finite-field-element) value, and `SWITCH_OBJ` does so
whenever *either* argument is immediate (small integers are reported first,
then finite-field elements), performing no part of the clone or
exchange. -/
theorem clone_switch_immediate_errors :
    (∀ (f : Nat) (st : State) (dst : GObj) (n : Int),
      FuncCLONE_OBJ f st dst (GObj.intObj n) = CloneRes.intErr st) ∧
    (∀ (f : Nat) (st : State) (dst : GObj) (n : Nat),
      FuncCLONE_OBJ f st dst (GObj.ffe n) = CloneRes.ffeErr st) ∧
    (∀ (owners : Nat → Option Nat) (tls : Nat) (bags : List BagRef)
      (o1 o2 : GObj), ((∃ n, o1 = GObj.intObj n) ∨ (∃ n, o2 = GObj.intObj n)) →
      FuncSWITCH_OBJ owners tls bags o1 o2 = SwitchRes.intErr bags) ∧
    (∀ (owners : Nat → Option Nat) (tls : Nat) (bags : List BagRef)
      (o1 o2 : GObj), ((∃ n, o1 = GObj.ffe n) ∨ (∃ n, o2 = GObj.ffe n)) →
      (∀ n, o1 ≠ GObj.intObj n) → (∀ n, o2 ≠ GObj.intObj n) →
      FuncSWITCH_OBJ owners tls bags o1 o2 = SwitchRes.ffeErr bags) := by
  refine ⟨fun f st dst n => rfl, fun f st dst n => rfl, ?_, ?_⟩
  · intro owners tls bags o1 o2 h
    rcases h with ⟨n, h1⟩ | ⟨n, h2⟩
    · subst h1; cases o2 <;> rfl
    · subst h2; cases o1 <;> rfl
  · intro owners tls bags o1 o2 h hn1 hn2
    rcases h with ⟨n, h1⟩ | ⟨n, h2⟩
    · subst h1
      cases o2 with
      | intObj m => exact absurd rfl (hn2 m)
      | ffe m => rfl
      | bag m => rfl
    · subst h2
      cases o1 with
      | intObj m => exact absurd rfl (hn1 m)
      | ffe m => rfl
      | bag m => rfl

/-- Witness for the amended C6 at concrete immediate inputs. -/
theorem clone_switch_immediate_errors_witness :
    FuncCLONE_OBJ 3 ⟨[], some 7⟩ (GObj.bag 0) (GObj.intObj 5) =
      CloneRes.intErr ⟨[], some 7⟩ ∧
    FuncSWITCH_OBJ (fun _ => none) 0 [⟨1, none⟩] (GObj.ffe 2) (GObj.intObj 5) =
      SwitchRes.intErr [⟨1, none⟩] :=
  ⟨clone_switch_immediate_errors.1 3 ⟨[], some 7⟩ (GObj.bag 0) 5,
   (clone_switch_immediate_errors.2.2.1 (fun _ => none) 0 [⟨1, none⟩]
     (GObj.ffe 2) (GObj.intObj 5) (Or.inr ⟨5, rfl⟩))⟩

theorem prPush_false (st : PrState) (obj : Nat) :
    (prPush st obj false).depth = st.depth + 1 ∧
    (prPush st obj false).this = obj ∧
    (prPush st obj false).lastPV = st.lastPV := by
  unfold prPush
  by_cases h : 0 < st.depth <;> simp [h]

theorem prPush_true (st : PrState) (obj : Nat) :
    (prPush st obj true).depth = st.depth ∧
    (prPush st obj true).lastPV = st.lastPV := by
  unfold prPush
  simp

theorem prPop_spec (st : PrState) (b : Bool) (l : Nat) :
    (prPop st b l).lastPV = l ∧
    (prPop st false l).depth = st.depth - 1 ∧
    (prPop st true l).depth = st.depth := by
  unfold prPop
  cases b <;> by_cases h : 0 < st.depth - 1 <;> simp [h] <;>
    by_cases h' : 0 < st.depth <;> simp [h']

theorem pathToks_found (st : PrState) :
    ∀ (k i j : Nat), i ≤ j → j < i + k → st.thiss j = st.this →
    ∃ t, i ≤ t ∧ t ≤ j ∧ st.thiss t = st.this ∧
      (∀ m, i ≤ m → m < t → st.thiss m ≠ st.this) ∧
      pathToks st k i =
        some ((List.range' i (t - i)).map fun m =>
          PTok.sel (st.thiss m) (st.indices m)) := by
  intro k
  induction k with
  | zero => intro i j h1 h2 _; omega
  | succ k ih =>
    intro i j h1 h2 h3
    by_cases hi : st.thiss i = st.this
    · refine ⟨i, le_rfl, h1, hi, fun m hm1 hm2 => absurd rfl (by omega : ¬ m = m), ?_⟩
      simp [pathToks, hi]
    · have hij : i < j := by
        rcases Nat.lt_or_ge i j with h | h
        · exact h
        · have hij' : i = j := by omega
          exact absurd (hij' ▸ h3) hi
      obtain ⟨t, ht1, ht2, ht3, ht4, ht5⟩ := ih (i+1) j hij (by omega) h3
      refine ⟨t, by omega, ht2, ht3, ?_, ?_⟩
      · intro m hm1 hm2
        rcases Nat.eq_or_lt_of_le hm1 with h | h
        · exact h ▸ hi
        · exact ht4 m h hm2
      · have htr : t - i = (t - (i+1)) + 1 := by omega
        rw [htr, List.range'_succ, List.map_cons]
        simp [pathToks, hi, ht5]

theorem pathToks_isSome (st : PrState) :
    ∀ (k i : Nat), (∃ j, i ≤ j ∧ j < i + k ∧ st.thiss j = st.this) →
      (pathToks st k i).isSome := by
  intro k i ⟨j, h1, h2, h3⟩
  obtain ⟨t, _, _, _, _, h⟩ := pathToks_found st k i j h1 h2 h3
  simp [h]

theorem print_preserves : ∀ f : Nat,
    (∀ (G : Nat → PCell) st obj st' ts, PrintObj G f st obj = some (st', ts) →
      st'.depth = st.depth ∧ st'.lastPV = st.lastPV) ∧
    (∀ (G : Nat → PCell) st obj st' ts, printBody G f st obj = some (st', ts) →
      st'.depth = st.depth ∧ st'.lastPV = st.lastPV) ∧
    (∀ (G : Nat → PCell) st k l st' ts, printSubs G f st k l = some (st', ts) →
      st'.depth = st.depth ∧ st'.lastPV = st.lastPV) := by
  intro f
  induction f with
  | zero =>
    refine ⟨?_, ?_, ?_⟩
    · intro G st obj st' ts h; exact absurd h (by simp [PrintObj])
    · intro G st obj st' ts h; exact absurd h (by simp [printBody])
    · intro G st k l st' ts h; exact absurd h (by simp [printSubs])
  | succ f ih =>
    obtain ⟨ihP, ihB, ihS⟩ := ih
    refine ⟨?_, ?_, ?_⟩
    · intro G st obj st' ts h
      simp only [PrintObj] at h
      cases hc : (st.lastPV == 2 && obj == st.this) with
      | false =>
        rw [hc] at h
        have hd3 : (prPush { st with lastPV := 1 } obj false).depth = st.depth + 1 :=
          (prPush_false _ obj).1
        split at h
        · exact absurd h (by simp)
        · next st4 ts4 heq =>
          have hd4 : st4.depth = (prPush { st with lastPV := 1 } obj false).depth := by
            split at heq
            · split at heq
              · split at heq
                · exact absurd heq (by simp)
                · next st5 ts5 hbody =>
                  cases heq
                  exact (ihB G _ _ _ _ hbody).1
              · cases heq; rfl
            · split at heq
              · exact absurd heq (by simp)
              · next ts5 hpath =>
                cases heq; rfl
          cases h
          constructor
          · rw [(prPop_spec st4 false st.lastPV).2.1, hd4, hd3]
            omega
          · exact (prPop_spec st4 false st.lastPV).1
      | true =>
        rw [hc] at h
        have hd3 : (prPush { st with lastPV := 1 } obj true).depth = st.depth :=
          (prPush_true _ obj).1
        split at h
        · exact absurd h (by simp)
        · next st4 ts4 heq =>
          have hd4 : st4.depth = (prPush { st with lastPV := 1 } obj true).depth := by
            split at heq
            · split at heq
              · split at heq
                · exact absurd heq (by simp)
                · next st5 ts5 hbody =>
                  cases heq
                  exact (ihB G _ _ _ _ hbody).1
              · cases heq; rfl
            · split at heq
              · exact absurd heq (by simp)
              · next ts5 hpath =>
                cases heq; rfl
          cases h
          constructor
          · rw [(prPop_spec st4 true st.lastPV).2.2, hd4, hd3]
          · exact (prPop_spec st4 true st.lastPV).1
    · intro G st obj st' ts h
      simp only [printBody] at h
      by_cases hm : IS_MARKABLE G obj = true
      · rw [if_pos hm] at h
        cases hsub : printSubs G f st 1 (G obj).subs with
        | none => rw [hsub] at h; exact absurd h (by simp)
        | some p =>
          obtain ⟨st5, ts5⟩ := p
          simp only [hsub] at h
          cases h
          exact ihS G st 1 (G obj).subs _ _ hsub
      · rw [if_neg hm] at h
        cases h
        exact ⟨rfl, rfl⟩
    · intro G st k l st' ts h
      match l with
      | [] =>
        simp only [printSubs] at h
        cases h
        exact ⟨rfl, rfl⟩
      | q :: qs =>
        simp only [printSubs] at h
        cases hq : PrintObj G f { st with index := k } q with
        | none => rw [hq] at h; exact absurd h (by simp)
        | some p =>
          obtain ⟨st4, ts4⟩ := p
          simp only [hq] at h
          cases hqs : printSubs G f st4 (k+1) qs with
          | none => rw [hqs] at h; exact absurd h (by simp)
          | some p' =>
            obtain ⟨st5, ts5⟩ := p'
            simp only [hqs] at h
            cases h
            have h1 := ihP G { st with index := k } q st4 ts4 hq
            have h2 := ihS G st4 (k+1) qs _ _ hqs
            exact ⟨by rw [h2.1, h1.1], by rw [h2.2, h1.2]⟩

theorem print_terminates (G : Nat → PCell) (S : Nat)
    (hS : ∀ o, (G o).subs.length + 2 ≤ S) : ∀ f : Nat,
    (∀ st obj, st.lastPV ≠ 2 → printFuel S st.depth ≤ f →
      (PrintObj G f st obj).isSome) ∧
    (∀ st obj, st.lastPV ≠ 2 → (S - 2) + printFuel S st.depth + 1 ≤ f →
      (printBody G f st obj).isSome) ∧
    (∀ st k (l : List Nat), st.lastPV ≠ 2 →
      l.length + printFuel S st.depth ≤ f → (printSubs G f st k l).isSome) := by
  have hS2 : 2 ≤ S := le_trans (by omega) (hS 0)
  intro f
  induction f with
  | zero =>
    refine ⟨?_, ?_, ?_⟩ <;> intro st _ <;> intros <;>
      simp [printFuel] at * <;> omega
  | succ f ih =>
    obtain ⟨ihP, ihB, ihS'⟩ := ih
    refine ⟨?_, ?_, ?_⟩
    · intro st obj hpv hf
      simp only [PrintObj]
      have hfv : (st.lastPV == 2 && obj == st.this) = false := by
        have : (st.lastPV == 2) = false := by simp [hpv]
        simp [this]
      rw [hfv]
      set st3 := prPush { st with lastPV := 1 } obj false with hst3
      have hd3 : st3.depth = st.depth + 1 :=
        (prPush_false { st with lastPV := 1 } obj).1
      by_cases hmk : IS_MARKED G st3 st3.this = false
      · rw [if_pos hmk]
        by_cases hdep : st3.depth < MAXPRINTDEPTH
        · rw [if_pos hdep]
          have hb : (printBody G f st3 st3.this).isSome := by
            apply ihB st3 st3.this
            · have : st3.lastPV = 1 :=
                (prPush_false { st with lastPV := 1 } obj).2.2
              omega
            · have e2 : st.depth + 2 ≤ MAXPRINTDEPTH := by omega
              have key : (S - 2) + printFuel S (st.depth + 1) + 1 + 1 ≤
                  printFuel S st.depth := by
                unfold printFuel
                have h1 : MAXPRINTDEPTH + 1 - st.depth =
                    (MAXPRINTDEPTH + 1 - (st.depth + 1)) + 1 := by omega
                rw [h1, Nat.mul_succ]
                omega
              rw [hd3]
              omega
          cases hbody : printBody G f st3 st3.this with
          | none => rw [hbody] at hb; simp at hb
          | some p => obtain ⟨st4, ts4⟩ := p; simp
        · rw [if_neg hdep]; simp
      · rw [if_neg hmk]
        have hmk' : IS_MARKED G st3 st3.this = true := by
          cases h : IS_MARKED G st3 st3.this
          · exact absurd h hmk
          · rfl
        have hpath : (pathToks st3 st3.depth 0).isSome := by
          apply pathToks_isSome
          unfold IS_MARKED at hmk'
          have := (Bool.and_eq_true _ _).mp hmk'
          obtain ⟨j, hj1, hj2⟩ := List.any_eq_true.mp this.2
          refine ⟨j, Nat.zero_le j, ?_, by simpa using hj2⟩
          have := List.mem_range.mp hj1
          omega
        cases hp : pathToks st3 st3.depth 0 with
        | none => rw [hp] at hpath; simp at hpath
        | some ts => simp
    · intro st obj hpv hf
      simp only [printBody]
      by_cases hm : IS_MARKABLE G obj = true
      · rw [if_pos hm]
        have hs : (printSubs G f st 1 (G obj).subs).isSome := by
          apply ihS' st 1 (G obj).subs hpv
          have := hS obj
          omega
        cases hsub : printSubs G f st 1 (G obj).subs with
        | none => rw [hsub] at hs; simp at hs
        | some p => obtain ⟨st4, ts4⟩ := p; simp
      · rw [if_neg hm]; simp
    · intro st k l hpv hf
      match l with
      | [] => simp [printSubs]
      | q :: qs =>
        simp only [printSubs]
        have hq : (PrintObj G f { st with index := k } q).isSome := by
          apply ihP { st with index := k } q hpv
          simp only [List.length_cons] at hf
          have : printFuel S ({ st with index := k } : PrState).depth =
              printFuel S st.depth := rfl
          omega
        cases hcall : PrintObj G f { st with index := k } q with
        | none => rw [hcall] at hq; simp at hq
        | some p =>
          obtain ⟨st4, ts4⟩ := p
          have hpres := ((print_preserves f).1 G { st with index := k } q st4 ts4 hcall)
          have hqs : (printSubs G f st4 (k+1) qs).isSome := by
            apply ihS' st4 (k+1) qs
            · rw [hpres.2]; exact hpv
            · rw [hpres.1]
              simp only [List.length_cons] at hf
              have : printFuel S ({ st with index := k } : PrState).depth =
                  printFuel S st.depth := rfl
              omega
          cases hrest : printSubs G f st4 (k+1) qs with
          | none => rw [hrest] at hqs; simp at hqs
          | some p' =>
            obtain ⟨st5, ts5⟩ := p'
            simp [hrest]

/-- C7: printing a self-referential structure terminates and emits a
back-reference: when `PrintObj` reaches an object in the markable tag range
that already appears on the ancestor stack (after the push, i.e. including
the immediate parent recorded in `PrintObjThiss`), it does not dispatch to
that object's print body — no `body` token is emitted and the result is the
same for every amount of fuel, so no recursion happens — and instead prints
the back-reference marker `~` followed by the chain of selectors
`PrintPathFuncs[..](PrintObjThiss[i], PrintObjIndices[i])` for
`i = 0, 1, ...` up to (excluding) the first stack position holding the
object, which is where the loop `for (i = 0; PrintObjThis != PrintObjThiss[i]; i++)`
stops. -/
theorem PrintObj_backref (G : Nat → PCell) (f : Nat) (st st3 : PrState) (obj : Nat)
    (hpv : st.lastPV ≠ 2)
    (h3 : st3 = prPush { st with lastPV := 1 } obj false)
    (hmk : IS_MARKED G st3 obj = true) :
    ∃ st' t, t < st3.depth ∧ st3.thiss t = obj ∧
      (∀ m, m < t → st3.thiss m ≠ obj) ∧
      PrintObj G (f+1) st obj = some (st', PTok.tilde ::
        (List.range t).map fun m => PTok.sel (st3.thiss m) (st3.indices m)) ∧
      ∀ o, PTok.body o ∉ (PTok.tilde ::
        (List.range t).map fun m => PTok.sel (st3.thiss m) (st3.indices m)) := by
  have hfv : (st.lastPV == 2 && obj == st.this) = false := by
    have h1 : (st.lastPV == 2) = false := by simp [hpv]
    simp [h1]
  have hthis : st3.this = obj := by
    rw [h3]; exact (prPush_false _ obj).2.1
  have hmm := hmk
  unfold IS_MARKED at hmm
  obtain ⟨hmkble, hany⟩ := (Bool.and_eq_true _ _).mp hmm
  obtain ⟨j, hj1, hj2⟩ := List.any_eq_true.mp hany
  have hj3 : j < st3.depth - 1 := List.mem_range.mp hj1
  have hj4 : st3.thiss j = st3.this := by
    rw [hthis]; simpa using hj2
  obtain ⟨t, ht0, htj, htt, htmin, hteq⟩ :=
    pathToks_found st3 st3.depth 0 j (Nat.zero_le j) (by omega) hj4
  rw [Nat.sub_zero] at hteq
  refine ⟨prPop st3 false st.lastPV, t, by omega, by rw [← hthis]; exact htt,
    ?_, ?_, ?_⟩
  · intro m hm
    rw [← hthis]
    exact htmin m (Nat.zero_le m) hm
  · simp only [PrintObj]
    rw [hfv, ← h3]
    have hmkP : ¬ IS_MARKED G st3 st3.this = false := by
      rw [hthis, hmk]; simp
    rw [if_neg hmkP, hteq, List.range_eq_range']
  · intro o
    simp only [List.mem_cons, List.mem_map]
    rintro (h | ⟨m, _, h⟩) <;> cases h

/-- Witness for C7: a record-shaped object `0` whose slot refers back to
itself; while its body is being printed (`0` is the immediate parent on the
ancestor stack at depth 1), printing `0` again emits just `~` (the
back-reference to the whole object), dispatches no print body, and
terminates. -/
theorem PrintObj_backref_witness :
    (⟨fun _ => 99, fun _ => 0, 0, 1, 1, 1⟩ : PrState).lastPV ≠ 2 ∧
    IS_MARKED (fun _ => ⟨true, [0]⟩)
      (prPush (⟨fun _ => 99, fun _ => 0, 0, 1, 1, 1⟩ : PrState) 0 false) 0 = true ∧
    (∃ st' t,
      t < (prPush (⟨fun _ => 99, fun _ => 0, 0, 1, 1, 1⟩ : PrState) 0 false).depth ∧
      (prPush (⟨fun _ => 99, fun _ => 0, 0, 1, 1, 1⟩ : PrState) 0 false).thiss t = 0 ∧
      (∀ m, m < t →
        (prPush (⟨fun _ => 99, fun _ => 0, 0, 1, 1, 1⟩ : PrState) 0 false).thiss m ≠ 0) ∧
      PrintObj (fun _ => ⟨true, [0]⟩) (5+1) ⟨fun _ => 99, fun _ => 0, 0, 1, 1, 1⟩ 0 =
        some (st', PTok.tilde :: (List.range t).map fun m =>
          PTok.sel ((prPush (⟨fun _ => 99, fun _ => 0, 0, 1, 1, 1⟩ : PrState) 0 false).thiss m)
            ((prPush (⟨fun _ => 99, fun _ => 0, 0, 1, 1, 1⟩ : PrState) 0 false).indices m)) ∧
      ∀ o, PTok.body o ∉ (PTok.tilde :: (List.range t).map fun m =>
          PTok.sel ((prPush (⟨fun _ => 99, fun _ => 0, 0, 1, 1, 1⟩ : PrState) 0 false).thiss m)
            ((prPush (⟨fun _ => 99, fun _ => 0, 0, 1, 1, 1⟩ : PrState) 0 false).indices m))) :=
  ⟨by decide, by decide,
    PrintObj_backref (fun _ => ⟨true, [0]⟩) 5 ⟨fun _ => 99, fun _ => 0, 0, 1, 1, 1⟩
      (prPush (⟨fun _ => 99, fun _ => 0, 0, 1, 1, 1⟩ : PrState) 0 false) 0
      (by decide) rfl (by decide)⟩

/-- C8: `MAXPRINTDEPTH` is the fixed constant 1024; for every unmarked
object reached by `PrintObj`, if after the push the ancestor-stack depth is
not below `MAXPRINTDEPTH`, `PrintObj` does not dispatch to the object's
type print body and instead emits only the depth-exceeded notice; and the
recursion never pushes beyond the fixed stack bound: whatever the object
graph (with print-body fan-out bounded by `S - 2`), fuel proportional to
`MAXPRINTDEPTH + 1 - depth` — independent of the graph — makes every
`PrintObj` call return. -/
theorem PrintObj_depth_guard (G : Nat → PCell) :
    MAXPRINTDEPTH = 1024 ∧
    (∀ (f : Nat) (st st3 : PrState) (obj : Nat) (fv : Bool),
      fv = (st.lastPV == 2 && obj == st.this) →
      st3 = prPush { st with lastPV := 1 } obj fv →
      IS_MARKED G st3 st3.this = false →
      MAXPRINTDEPTH ≤ st3.depth →
      PrintObj G (f+1) st obj = some (prPop st3 fv st.lastPV, [PTok.depthMsg])) ∧
    (∀ (S f : Nat) (st : PrState) (obj : Nat),
      (∀ o, (G o).subs.length + 2 ≤ S) → st.lastPV ≠ 2 →
      printFuel S st.depth ≤ f → (PrintObj G f st obj).isSome) := by
  refine ⟨rfl, ?_,
    fun S f st obj hS hpv hf => (print_terminates G S hS f).1 st obj hpv hf⟩
  intro f st st3 obj fv hfv h3 hmk hdep
  simp only [PrintObj]
  rw [← hfv, ← h3, if_pos hmk, if_neg (by omega : ¬ st3.depth < MAXPRINTDEPTH)]

/-- Witness for C8 at a concrete state already at depth 1024: the push
brings the stack to 1025 ≥ `MAXPRINTDEPTH`, and only the depth-exceeded
notice is emitted. -/
theorem PrintObj_depth_guard_witness :
    PrintObj (fun _ => ⟨false, []⟩) (3+1) (⟨fun _ => 0, fun _ => 0, 0, 0, 1024, 1⟩ : PrState) 7 =
      some (prPop (prPush (⟨fun _ => 0, fun _ => 0, 0, 0, 1024, 1⟩ : PrState) 7 false) false 1,
        [PTok.depthMsg]) :=
  (PrintObj_depth_guard (fun _ => ⟨false, []⟩)).2.1 3
    ⟨fun _ => 0, fun _ => 0, 0, 0, 1024, 1⟩
    (prPush (⟨fun _ => 0, fun _ => 0, 0, 0, 1024, 1⟩ : PrState) 7 false) 7 false
    (by decide) rfl (by decide) (by decide)

/-- C3: for every immutable object `x` (a constant-tag object, answered by
`IsMutableObjNot`, or a positional object whose mutability filter is
false) and either value of the mutability flag, `CopyObj(x, mut)` returns
`x` itself — the identical handle, not a new object — and leaves the heap
unchanged (only the thread-scoped `copiedObjs` session pointer is reset,
as it is on every top-level copy). -/
theorem CopyObj_immutable_identity (f : Nat) (st : State) (i : Nat)
    (mutArg : Bool) (c : Cell) (hc : st.heap[i]? = some c)
    (hnc : c.copying = false) (him : c.tnum = TNum.constant ∨ c.mutbl = false) :
    CopyObj (f+1) st i mutArg = some (⟨st.heap, none⟩, i) := by
  have hc0 : (⟨st.heap, none⟩ : State).heap[i]? = some c := hc
  cases ht : c.tnum with
  | constant =>
    simp [CopyObj, COPY_OBJ, CLEAN_OBJ, hc0, ht, hnc]
  | posobj =>
    have hm : c.mutbl = false := by
      rcases him with h | h
      · rw [ht] at h; cases h
      · exact h
    simp [CopyObj, COPY_OBJ, CLEAN_OBJ, hc0, ht, hnc, hm]

/-- Witness for C3: an immutable positional object with a subobject slot is
returned identically (handle 0), heap untouched. -/
theorem CopyObj_immutable_identity_witness :
    CopyObj 4 ⟨[⟨TNum.posobj, false, false, true, Slot0.desc 3, [some 0]⟩], some 9⟩ 0 true =
      some (⟨[⟨TNum.posobj, false, false, true, Slot0.desc 3, [some 0]⟩], none⟩, 0) :=
  CopyObj_immutable_identity 3
    ⟨[⟨TNum.posobj, false, false, true, Slot0.desc 3, [some 0]⟩], some 9⟩ 0 true
    ⟨TNum.posobj, false, false, true, Slot0.desc 3, [some 0]⟩ rfl rfl (Or.inr rfl)

theorem setCell_length (st : State) (i : Nat) (c : Cell) :
    (setCell st i c).heap.length = st.heap.length := by
  simp [setCell]

theorem setCell_get_self {st : State} {i : Nat} (c : Cell)
    (h : i < st.heap.length) : (setCell st i c).heap[i]? = some c := by
  simp [setCell, List.getElem?_set_self h]

theorem setCell_get_ne {st : State} {i j : Nat} (c : Cell) (h : i ≠ j) :
    (setCell st i c).heap[j]? = st.heap[j]? := by
  simp [setCell, List.getElem?_set_ne h]

theorem heap_get_of_lt {st : State} {j : Nat} (h : j < st.heap.length) :
    ∃ c, st.heap[j]? = some c :=
  ⟨st.heap[j], List.getElem?_eq_getElem h⟩

theorem heap_get_lt {st : State} {j : Nat} {c : Cell}
    (h : st.heap[j]? = some c) : j < st.heap.length := by
  rcases List.getElem?_eq_some_iff.mp h with ⟨h', _⟩
  exact h'

theorem evolCell_refl (L len' : Nat) (c : Cell) : evolCell L len' c c :=
  Or.inl rfl

theorem evolCell_mono {L l1 l2 : Nat} {c c' : Cell} (h : l1 ≤ l2)
    (he : evolCell L l1 c c') : evolCell L l2 c c' := by
  rcases he with rfl | ⟨h1, h2, h3, h4, cp, h5, h6, h7⟩
  · exact Or.inl rfl
  · exact Or.inr ⟨h1, h2, h3, h4, cp, h5, by omega, h7⟩

theorem evolCell_trans {L l1 l2 : Nat} {c c1 c2 : Cell} (h12 : l1 ≤ l2)
    (h1 : evolCell L l1 c c1) (h2 : evolCell L l2 c1 c2) : evolCell L l2 c c2 := by
  rcases h1 with rfl | ⟨e1, e2, e3, e4, cp, e5, e6, rfl⟩
  · exact h2
  · rcases h2 with rfl | ⟨f1, _⟩
    · exact Or.inr ⟨e1, e2, e3, e4, cp, e5, by omega, rfl⟩
    · rw [markCell] at f1
      simp at f1

theorem evolCell_marked {L l1 : Nat} {c c' : Cell} (hc : c.copying = true)
    (h : evolCell L l1 c c') : c' = c := by
  rcases h with rfl | ⟨h1, _⟩
  · rfl
  · rw [h1] at hc; cases hc

theorem Reach_mono {st st' : State}
    (h : ∀ (j : Nat) (c : Cell), st.heap[j]? = some c → c.copying = true →
      st'.heap[j]? = some c) :
    ∀ {a b}, Reach st a b → Reach st' a b := by
  intro a b hr
  induction hr with
  | refl i => exact Reach.refl i
  | step i q j c hc hcp hs _ ih => exact Reach.step i q j c (h i c hc hcp) hcp hs ih

theorem marked_preserved {L : Nat} {ex : Option Nat} {st st' : State} {root : Nat}
    (hwf : WfC L st) (hev : HeapEvol L ex st st' root) :
    ∀ (j : Nat) (c : Cell), st.heap[j]? = some c → c.copying = true →
      st'.heap[j]? = some c := by
  intro j c hc hcp
  rcases Nat.lt_or_ge j L with hj | hj
  · obtain ⟨c', hc', hevc⟩ := hev.2.2.1 j c hj hc
    rw [evolCell_marked hcp hevc] at hc'
    exact hc'
  · have h := (hwf.2 j c hc).2 hj
    rw [h] at hcp
    cases hcp

theorem markedIn_of_get {st : State} {j : Nat} {c : Cell}
    (h : st.heap[j]? = some c) (hc : c.copying = true) : markedIn st j :=
  ⟨c, h, hc⟩

theorem HeapEvol_refl (L : Nat) (ex : Option Nat) (st : State) (root : Nat) :
    HeapEvol L ex st st root :=
  ⟨le_rfl, fun _ _ _ _ => rfl,
   fun _ c _ hc => ⟨c, hc, evolCell_refl L st.heap.length c⟩,
   fun _ h1 h2 => absurd h1 h2⟩

/-- The effect of one `CopyObjPosObj` body on an unmarked mutable copyable
positional object, given the postcondition of its subvalue loop (the
induction hypothesis for `copySlots`). -/
theorem copyMainStep (f L : Nat)
    (ihS : ∀ (st : State) (src cp : Nat) (mutArg : Bool) (k : Nat) (st' : State),
      WfC L st → src < L → markedIn st src → L ≤ cp → cp < st.heap.length →
      SlotsLen st src cp → copySlots f st src cp mutArg k = some st' →
      WfC L st' ∧ HeapEvol L (some cp) st st' src ∧ SlotsOut st src cp k st')
    (st : State) (obj : Nat) (mutArg : Bool) (st3 : State) (c : Cell)
    (hwf : WfC L st) (hobj : obj < L)
    (hcell : st.heap[obj]? = some c) (ht : c.tnum = TNum.posobj)
    (hcp : c.copying = false) (hm : c.mutbl = true) (hcop : c.copyable = true)
    (hslots : copySlots f
      (setCell ⟨st.heap ++ [newCopyCell c mutArg], st.copiedObjs⟩ obj
        (markCell c st.heap.length)) obj st.heap.length mutArg 0 = some st3) :
    WfC L st3 ∧ HeapEvol L none st st3 obj ∧
      CopyResOut st obj mutArg st3 st.heap.length := by
  have hLlen : L ≤ st.heap.length := hwf.1
  have hobjlen : obj < st.heap.length := by omega
  set st1 : State := ⟨st.heap ++ [newCopyCell c mutArg], st.copiedObjs⟩ with hst1
  set st2 : State := setCell st1 obj (markCell c st.heap.length) with hst2
  have hlen2 : st2.heap.length = st.heap.length + 1 := by
    rw [hst2, setCell_length, hst1]
    simp
  have hget2_obj : st2.heap[obj]? = some (markCell c st.heap.length) := by
    rw [hst2]
    apply setCell_get_self
    rw [hst1]
    simp
    omega
  have hget2_cp : st2.heap[st.heap.length]? = some (newCopyCell c mutArg) := by
    rw [hst2, setCell_get_ne _ (by omega : obj ≠ st.heap.length), hst1]
    show (st.heap ++ [newCopyCell c mutArg])[st.heap.length]? = _
    exact List.getElem?_concat_length _ _
  have hget2_other : ∀ j, j ≠ obj → j < st.heap.length →
      st2.heap[j]? = st.heap[j]? := by
    intro j hj hjl
    rw [hst2, setCell_get_ne _ (fun h => hj h.symm), hst1]
    show (st.heap ++ [newCopyCell c mutArg])[j]? = _
    exact List.getElem?_append_left hjl
  have hcases2 : ∀ (j : Nat) (c2 : Cell), st2.heap[j]? = some c2 →
      (j = obj ∧ c2 = markCell c st.heap.length) ∨
      (j = st.heap.length ∧ c2 = newCopyCell c mutArg) ∨
      (j ≠ obj ∧ j < st.heap.length ∧ st.heap[j]? = some c2) := by
    intro j c2 hj
    by_cases h1 : j = obj
    · subst h1
      rw [hget2_obj] at hj
      cases hj
      exact Or.inl ⟨rfl, rfl⟩
    · by_cases h2 : j = st.heap.length
      · subst h2
        rw [hget2_cp] at hj
        cases hj
        exact Or.inr (Or.inl ⟨rfl, rfl⟩)
      · have hjl : j < st.heap.length := by
          have hlt := heap_get_lt hj
          omega
        refine Or.inr (Or.inr ⟨h1, hjl, ?_⟩)
        rw [← hget2_other j h1 hjl]
        exact hj
  have hwf2 : WfC L st2 := by
    refine ⟨by omega, ?_⟩
    intro j c2 hj
    rcases hcases2 j c2 hj with ⟨rfl, rfl⟩ | ⟨rfl, rfl⟩ | ⟨hne, hjl, hjst⟩
    · constructor
      · intro _
        constructor
        · intro k q hkq
          have hkq' : c.slots[k]? = some (some q) := by
            simpa [markCell] using hkq
          exact ((hwf.2 _ c hcell).1 hobj).1 k q hkq'
        · intro _
          refine ⟨by simp [markCell, ht], by simp [markCell, hm],
            c.slot0, st.heap.length, by simp [markCell], by omega, by omega⟩
      · intro hjL
        omega
    · constructor
      · intro hjL
        omega
      · intro _
        simp [newCopyCell]
    · constructor
      · intro hjL
        refine ⟨((hwf.2 j c2 hjst).1 hjL).1, ?_⟩
        intro hcpy
        obtain ⟨t1, t2, s, cpv, t3, t4, t5⟩ := ((hwf.2 j c2 hjst).1 hjL).2 hcpy
        exact ⟨t1, t2, s, cpv, t3, t4, by omega⟩
      · exact (hwf.2 j c2 hjst).2
  have hmk2 : markedIn st2 obj := ⟨markCell c st.heap.length, hget2_obj, rfl⟩
  have hsl2 : SlotsLen st2 obj st.heap.length := by
    intro c2 cc2 h1 h2
    rw [hget2_obj] at h1
    cases h1
    rw [hget2_cp] at h2
    cases h2
    simp [markCell, newCopyCell]
  obtain ⟨hwf3, hev3, hout3⟩ := ihS st2 obj st.heap.length mutArg 0 st3 hwf2 hobj
    hmk2 (by omega) (by omega) hsl2 hslots
  have hlen3 : st2.heap.length ≤ st3.heap.length := hev3.1
  refine ⟨hwf3, ⟨by omega, ?_, ?_, ?_⟩, ?_⟩
  · intro j hjL hjlen _
    have h2 : st2.heap[j]? = st.heap[j]? := hget2_other j (by omega) hjlen
    have h3 : st3.heap[j]? = st2.heap[j]? := by
      refine hev3.2.1 j hjL (by omega) ?_
      intro hc
      cases hc
      omega
    rw [h3, h2]
  · intro j cj hjL hjc
    by_cases hje : j = obj
    · subst hje
      rw [hcell] at hjc
      cases hjc
      obtain ⟨c', hc', hevc⟩ := hev3.2.2.1 _ (markCell c st.heap.length) hjL hget2_obj
      rw [evolCell_marked (by simp [markCell]) hevc] at hc'
      exact ⟨markCell c st.heap.length, hc',
        Or.inr ⟨hcp, ht, hm, hcop, st.heap.length, hLlen, by omega, rfl⟩⟩
    · have h2 : st2.heap[j]? = st.heap[j]? := hget2_other j hje (by omega)
      exact hev3.2.2.1 j cj hjL (by rw [h2]; exact hjc)
  · intro j hj3 hjst
    by_cases hje : j = obj
    · subst hje
      exact Reach.refl j
    · refine hev3.2.2.2 j hj3 ?_
      rintro ⟨c2, hc2, hcp2⟩
      rcases hcases2 j c2 hc2 with ⟨he, _⟩ | ⟨_, rfl⟩ | ⟨_, _, hjq⟩
      · exact hje he
      · simp [newCopyCell] at hcp2
      · exact hjst ⟨c2, hjq, hcp2⟩
  · intro c0 hc0
    rw [hcell] at hc0
    cases hc0
    refine ⟨?_, ?_, ?_⟩
    · intro h
      rw [hcp] at h
      cases h
    · intro _ him
      rcases him with h | h
      · rw [ht] at h
        cases h
      · rw [hm] at h
        cases h
    · intro _ _ _
      refine ⟨rfl, ?_, ?_⟩
      · exact marked_preserved hwf2 hev3 obj _ hget2_obj (by simp [markCell])
      · obtain ⟨cc', hcc', g1, g2, g3, g4, g5, g6, _, gspec⟩ :=
          hout3 (markCell c st.heap.length) (newCopyCell c mutArg) hget2_obj hget2_cp
        refine ⟨cc', hcc', by rw [g1]; simp [newCopyCell, ht],
          by rw [g2]; simp [newCopyCell], by rw [g3]; simp [newCopyCell],
          by rw [g4]; simp [newCopyCell], by rw [g5]; simp [newCopyCell],
          by rw [g6]; simp [newCopyCell], ?_⟩
        intro k q hkq
        have hkq2 : (markCell c st.heap.length).slots[k]? = some (some q) := by
          simpa [markCell] using hkq
        exact gspec k q (Nat.zero_le k) hkq2

/-- The effect of one iteration of the `CopyObjPosObj` subvalue loop on a
non-null slot, given the induction hypotheses for `COPY_OBJ` (the recursive
copy of the subobject) and for `copySlots` (the rest of the loop). -/
theorem slotsStep (f L : Nat)
    (ihC : ∀ (st : State) (obj : Nat) (mutArg : Bool) (st' : State) (r : Nat),
      WfC L st → obj < L → COPY_OBJ f st obj mutArg = some (st', r) →
      WfC L st' ∧ HeapEvol L none st st' obj ∧ CopyResOut st obj mutArg st' r)
    (ihS : ∀ (st : State) (src cp : Nat) (mutArg : Bool) (k : Nat) (st' : State),
      WfC L st → src < L → markedIn st src → L ≤ cp → cp < st.heap.length →
      SlotsLen st src cp → copySlots f st src cp mutArg k = some st' →
      WfC L st' ∧ HeapEvol L (some cp) st st' src ∧ SlotsOut st src cp k st')
    (st : State) (src cp : Nat) (mutArg : Bool) (k : Nat) (st' : State)
    (cs : Cell) (q : Nat) (st4 : State) (v : Nat) (cc4 : Cell)
    (hwf : WfC L st) (hsrc : src < L) (hcs : st.heap[src]? = some cs)
    (hcscp : cs.copying = true)
    (hcpL : L ≤ cp) (hcplt : cp < st.heap.length) (hlen : SlotsLen st src cp)
    (hsk : cs.slots[k]? = some (some q))
    (hcopy : COPY_OBJ f st q mutArg = some (st4, v))
    (hcc4 : st4.heap[cp]? = some cc4)
    (hrun : copySlots f (setCell st4 cp (setSlot cc4 k (some v))) src cp mutArg (k+1)
      = some st') :
    WfC L st' ∧ HeapEvol L (some cp) st st' src ∧ SlotsOut st src cp k st' := by
  have hLlen : L ≤ st.heap.length := hwf.1
  have hqL : q < L := ((hwf.2 src cs hcs).1 hsrc).1 k q hsk
  obtain ⟨hwf4, hev4, hres4⟩ := ihC st q mutArg st4 v hwf hqL hcopy
  have hlen4 : st.heap.length ≤ st4.heap.length := hev4.1
  have hcp_pres : st4.heap[cp]? = st.heap[cp]? := by
    refine hev4.2.1 cp hcpL hcplt ?_
    simp
  have hccSt : st.heap[cp]? = some cc4 := by
    rw [← hcp_pres]
    exact hcc4
  have hcpunm : cc4.copying = false := (hwf.2 cp cc4 hccSt).2 hcpL
  have hpres4 := marked_preserved hwf hev4
  have hcs4 : st4.heap[src]? = some cs := hpres4 src cs hcs hcscp
  set st5 : State := setCell st4 cp (setSlot cc4 k (some v)) with hst5
  have hlen5 : st5.heap.length = st4.heap.length := by
    rw [hst5, setCell_length]
  have hget5_cp : st5.heap[cp]? = some (setSlot cc4 k (some v)) := by
    rw [hst5]
    apply setCell_get_self
    have := heap_get_lt hcc4
    omega
  have hget5_other : ∀ j, j ≠ cp → st5.heap[j]? = st4.heap[j]? := by
    intro j hj
    rw [hst5]
    exact setCell_get_ne _ (fun h => hj h.symm)
  have hcs5 : st5.heap[src]? = some cs := by
    rw [hget5_other src (by omega)]
    exact hcs4
  have hwf5 : WfC L st5 := by
    refine ⟨by omega, ?_⟩
    intro j c5 hj
    by_cases hje : j = cp
    · subst hje
      rw [hget5_cp] at hj
      cases hj
      refine ⟨fun hjL => absurd hjL (by omega), fun _ => ?_⟩
      show (setSlot cc4 k (some v)).copying = false
      simpa [setSlot] using hcpunm
    · have hj4 : st4.heap[j]? = some c5 := by
        rw [← hget5_other j hje]
        exact hj
      refine ⟨fun hjL => ⟨((hwf4.2 j c5 hj4).1 hjL).1, ?_⟩, (hwf4.2 j c5 hj4).2⟩
      intro hcpy
      obtain ⟨t1, t2, s, cpv, t3, t4, t5⟩ := ((hwf4.2 j c5 hj4).1 hjL).2 hcpy
      exact ⟨t1, t2, s, cpv, t3, t4, by omega⟩
  have hmk5 : markedIn st5 src := ⟨cs, hcs5, hcscp⟩
  have hsl5 : SlotsLen st5 src cp := by
    intro c5 cc5 h1 h2
    rw [hcs5] at h1
    cases h1
    rw [hget5_cp] at h2
    cases h2
    show (setSlot cc4 k (some v)).slots.length = cs.slots.length
    simp [setSlot]
    exact hlen cs cc4 hcs hccSt
  obtain ⟨hwf', hev', hout'⟩ := ihS st5 src cp mutArg (k+1) st' hwf5 hsrc hmk5 hcpL
    (by omega) hsl5 hrun
  have hlen' : st5.heap.length ≤ st'.heap.length := hev'.1
  have hpres45 : ∀ (j : Nat) (cj : Cell), st4.heap[j]? = some cj →
      cj.copying = true → st5.heap[j]? = some cj := by
    intro j cj hj hcpy
    by_cases hje : j = cp
    · subst hje
      rw [hcc4] at hj
      cases hj
      rw [hcpunm] at hcpy
      cases hcpy
    · rw [hget5_other j hje]
      exact hj
  have hpres5' := marked_preserved hwf5 hev'
  have hpres4' : ∀ (j : Nat) (cj : Cell), st4.heap[j]? = some cj →
      cj.copying = true → st'.heap[j]? = some cj :=
    fun j cj hj hcpy => hpres5' j cj (hpres45 j cj hj hcpy) hcpy
  refine ⟨hwf', ⟨by omega, ?_, ?_, ?_⟩, ?_⟩
  · intro j hjL hjlen hjcp
    have hjcp' : j ≠ cp := by
      intro h
      exact hjcp (by rw [h])
    have h4 : st4.heap[j]? = st.heap[j]? := by
      refine hev4.2.1 j hjL hjlen ?_
      simp
    have h5 : st5.heap[j]? = st4.heap[j]? := hget5_other j hjcp'
    have h' : st'.heap[j]? = st5.heap[j]? := hev'.2.1 j hjL (by omega) hjcp
    rw [h', h5, h4]
  · intro j cj hjL hjc
    obtain ⟨c4, hc4, hev4c⟩ := hev4.2.2.1 j cj hjL hjc
    have hc5 : st5.heap[j]? = some c4 := by
      rw [hget5_other j (by omega)]
      exact hc4
    obtain ⟨c', hc', hev5c⟩ := hev'.2.2.1 j c4 hjL hc5
    exact ⟨c', hc', evolCell_trans (by omega) hev4c hev5c⟩
  · intro j hj' hjst
    by_cases hj5 : markedIn st5 j
    · have hj4 : markedIn st4 j := by
        obtain ⟨c5, hc5, hcpy5⟩ := hj5
        by_cases hje : j = cp
        · subst hje
          rw [hget5_cp] at hc5
          cases hc5
          rw [show (setSlot cc4 k (some v)).copying = cc4.copying from rfl, hcpunm]
            at hcpy5
          cases hcpy5
        · refine ⟨c5, ?_, hcpy5⟩
          rw [← hget5_other j hje]
          exact hc5
      have hreach4 : Reach st4 q j := hev4.2.2.2 j hj4 hjst
      have hreach' : Reach st' q j := Reach_mono hpres4' hreach4
      exact Reach.step src q j cs (hpres4' src cs hcs4 hcscp) hcscp ⟨k, hsk⟩ hreach'
    · exact hev'.2.2.2 j hj' hj5
  · intro c0 cc0 h1 h2
    rw [hcs] at h1
    cases h1
    rw [hccSt] at h2
    cases h2
    obtain ⟨cc', hcc', g1, g2, g3, g4, g5, g6, gbelow, gspec⟩ :=
      hout' cs (setSlot cc4 k (some v)) hcs5 hget5_cp
    have hklt : k < cc4.slots.length := by
      have hk : k < cs.slots.length := by
        rcases List.getElem?_eq_some_iff.mp hsk with ⟨hh, _⟩
        exact hh
      rw [hlen cs cc4 hcs hccSt]
      exact hk
    refine ⟨cc', hcc', by rw [g1]; rfl, by rw [g2]; rfl, by rw [g3]; rfl,
      by rw [g4]; rfl, by rw [g5]; rfl, by rw [g6]; simp [setSlot], ?_, ?_⟩
    · intro m hm
      rw [gbelow m (by omega)]
      show (setSlot cc4 k (some v)).slots[m]? = cc4.slots[m]?
      simp only [setSlot]
      exact List.getElem?_set_ne (by omega : k ≠ m)
    · intro m q' hkm hm
      rcases Nat.eq_or_lt_of_le hkm with he | hlt
      · subst he
        rw [hsk] at hm
        cases hm
        refine ⟨v, ?_, ?_⟩
        · rw [gbelow k (by omega)]
          show (setSlot cc4 k (some v)).slots[k]? = some (some v)
          simp only [setSlot]
          exact List.getElem?_set_self hklt
        · have hqlen : q < st.heap.length := by omega
          obtain ⟨cq, hcq⟩ := heap_get_of_lt hqlen
          have hres := hres4 cq hcq
          cases hcqc : cq.copying with
          | true =>
            obtain ⟨hst4eq, s, hs⟩ := hres.1 hcqc
            refine ⟨cq, ?_, Or.inl ⟨hcqc, s, hs⟩⟩
            refine hpres4' q cq ?_ hcqc
            rw [hst4eq]
            exact hcq
          | false =>
            by_cases himm : cq.tnum = TNum.constant ∨ cq.mutbl = false
            · obtain ⟨hst4eq, hvq⟩ := hres.2.1 hcqc himm
              have hq5 : st5.heap[q]? = some cq := by
                rw [hget5_other q (by omega), hst4eq]
                exact hcq
              obtain ⟨c', hc', hevq⟩ := hev'.2.2.1 q cq hqL hq5
              rcases hevq with rfl | ⟨_, hpos, hmut, _⟩
              · exact ⟨_, hc', Or.inr ⟨hvq, hcqc, himm⟩⟩
              · rcases himm with hh | hh
                · rw [hh] at hpos
                  cases hpos
                · rw [hh] at hmut
                  cases hmut
            · have hpos : cq.tnum = TNum.posobj := by
                cases h : cq.tnum
                · exact absurd (Or.inl h) himm
                · rfl
              have hmut : cq.mutbl = true := by
                cases h : cq.mutbl
                · exact absurd (Or.inr h) himm
                · rfl
              obtain ⟨hrv, hmark4, _⟩ := hres.2.2 hcqc hpos hmut
              refine ⟨markCell cq v, hpres4' q _ hmark4 (by simp [markCell]),
                Or.inl ⟨by simp [markCell], cq.slot0, by simp [markCell]⟩⟩
      · exact gspec m q' (by omega) hm

/-- Joint invariant of the copy phase (`COPY_OBJ` and its subvalue loop),
by induction on fuel: the heap only grows, bags allocated during the
session are never marked, original bags are at most marked with a
forwarding record to a session bag, marks once placed survive with the
same forwarding record, every newly marked bag is reachable from the call's
root through marked bags, and the returned handle satisfies `CopyResOut` /
`SlotsOut`. -/
theorem copyPhase : ∀ (f L : Nat),
    (∀ (st : State) (obj : Nat) (mutArg : Bool) (st' : State) (r : Nat),
      WfC L st → obj < L → COPY_OBJ f st obj mutArg = some (st', r) →
      WfC L st' ∧ HeapEvol L none st st' obj ∧ CopyResOut st obj mutArg st' r) ∧
    (∀ (st : State) (src cp : Nat) (mutArg : Bool) (k : Nat) (st' : State),
      WfC L st → src < L → markedIn st src → L ≤ cp → cp < st.heap.length →
      SlotsLen st src cp → copySlots f st src cp mutArg k = some st' →
      WfC L st' ∧ HeapEvol L (some cp) st st' src ∧ SlotsOut st src cp k st') := by
  intro f
  induction f with
  | zero =>
    intro L
    constructor
    · intro st obj mutArg st' r _ _ h
      exact absurd h (by simp [COPY_OBJ])
    · intro st src cp mutArg k st' _ _ _ _ _ _ h
      exact absurd h (by simp [copySlots])
  | succ f ih =>
    intro L
    constructor
    · intro st obj mutArg st' r hwf hobj hrun
      simp only [COPY_OBJ] at hrun
      cases hcell : st.heap[obj]? with
      | none => rw [hcell] at hrun; cases hrun
      | some c =>
        simp only [hcell] at hrun
        cases ht : c.tnum with
        | constant =>
          cases hcp : c.copying with
          | false =>
            simp only [ht, hcp] at hrun
            cases hrun
            refine ⟨hwf, HeapEvol_refl L none st obj, ?_⟩
            intro c0 hc0
            rw [hcell] at hc0
            cases hc0
            refine ⟨?_, ?_, ?_⟩
            · intro h; rw [hcp] at h; cases h
            · intro _ _; exact ⟨rfl, rfl⟩
            · intro _ hpos; rw [ht] at hpos; cases hpos
          | true =>
            simp only [ht, hcp] at hrun
            cases hrun
        | posobj =>
          cases hcp : c.copying with
          | true =>
            simp only [ht, hcp] at hrun
            cases hs0 : c.slot0 with
            | desc d =>
              simp only [hs0] at hrun
              cases hrun
            | fwd s cpv =>
              simp only [hs0] at hrun
              cases hrun
              refine ⟨hwf, HeapEvol_refl L none st obj, ?_⟩
              intro c0 hc0
              rw [hcell] at hc0
              cases hc0
              refine ⟨fun _ => ⟨rfl, s, hs0⟩, ?_, ?_⟩
              · intro hval _; rw [hcp] at hval; cases hval
              · intro hval _ _; rw [hcp] at hval; cases hval
          | false =>
            simp only [ht, hcp] at hrun
            cases hm : c.mutbl with
            | false =>
              rw [if_pos (by rw [hm])] at hrun
              cases hrun
              refine ⟨hwf, HeapEvol_refl L none st obj, ?_⟩
              intro c0 hc0
              rw [hcell] at hc0
              cases hc0
              refine ⟨?_, ?_, ?_⟩
              · intro h; rw [hcp] at h; cases h
              · intro _ _; exact ⟨rfl, rfl⟩
              · intro _ _ hmm; rw [hm] at hmm; cases hmm
            | true =>
              rw [if_neg (by simp [hm])] at hrun
              cases hcop : c.copyable with
              | false =>
                rw [if_pos (by rw [hcop])] at hrun
                cases hrun
              | true =>
                rw [if_neg (by simp [hcop])] at hrun
                cases hslots : copySlots f
                    (setCell ⟨st.heap ++ [newCopyCell c mutArg], st.copiedObjs⟩ obj
                      (markCell c st.heap.length)) obj st.heap.length mutArg 0 with
                | none => rw [hslots] at hrun; cases hrun
                | some st3 =>
                  rw [hslots] at hrun
                  cases hrun
                  exact copyMainStep f L (ih L).2 st obj mutArg st' c hwf hobj hcell
                    ht hcp hm hcop hslots
                  
    · intro st src cp mutArg k st' hwf hsrc hmk hcpL hcplt hlen hrun
      simp only [copySlots] at hrun
      obtain ⟨cs, hcs, hcscp⟩ := hmk
      simp only [hcs] at hrun
      cases hsk : cs.slots[k]? with
      | none =>
        simp only [hsk] at hrun
        cases hrun
        refine ⟨hwf, HeapEvol_refl L (some cp) st src, ?_⟩
        intro c0 cc0 h1 h2
        rw [hcs] at h1
        cases h1
        refine ⟨cc0, h2, rfl, rfl, rfl, rfl, rfl, rfl, fun m _ => rfl, ?_⟩
        intro m q hkm hm
        have hklen : cs.slots.length ≤ k := List.getElem?_eq_none_iff.mp hsk
        have hnone : cs.slots[m]? = none := List.getElem?_eq_none (by omega)
        rw [hnone] at hm
        cases hm
      | some sv =>
        simp only [hsk] at hrun
        cases sv with
        | none =>
          obtain ⟨hwf', hev', hout'⟩ := (ih L).2 st src cp mutArg (k+1) st' hwf hsrc
            ⟨cs, hcs, hcscp⟩ hcpL hcplt hlen hrun
          refine ⟨hwf', hev', ?_⟩
          intro c0 cc0 h1 h2
          obtain ⟨cc', hcc', g1, g2, g3, g4, g5, g6, gbelow, gspec⟩ := hout' c0 cc0 h1 h2
          rw [hcs] at h1
          cases h1
          refine ⟨cc', hcc', g1, g2, g3, g4, g5, g6, fun m hm => gbelow m (by omega), ?_⟩
          intro m q hkm hm
          rcases Nat.eq_or_lt_of_le hkm with he | hlt
          · subst he
            rw [hsk] at hm
            cases hm
          · exact gspec m q (by omega) hm
        | some q =>
          have hrun2 : (match COPY_OBJ f st q mutArg with
              | none => none
              | some (stq, v) =>
                match stq.heap[cp]? with
                | none => none
                | some cc =>
                  copySlots f (setCell stq cp (setSlot cc k (some v))) src cp mutArg (k+1))
              = some st' := hrun
          cases hcopy : COPY_OBJ f st q mutArg with
          | none =>
            rw [hcopy] at hrun2
            cases hrun2
          | some p =>
            obtain ⟨st4, v⟩ := p
            rw [hcopy] at hrun2
            simp only [] at hrun2
            cases hcc4 : st4.heap[cp]? with
            | none =>
              rw [hcc4] at hrun2
              cases hrun2
            | some cc4 =>
              rw [hcc4] at hrun2
              simp only [] at hrun2
              exact slotsStep f L (ih L).1 (ih L).2 st src cp mutArg k st' cs q st4 v
                cc4 hwf hsrc hcs hcscp hcpL hcplt hlen hsk hcopy hcc4 hrun2

theorem CleanEvol_refl (st : State) : CleanEvol st st := by
  refine ⟨rfl, fun j => Or.inl rfl, ?_⟩
  intro m c c' hc hc' hcp hcp' k q _ cq' _
  rw [hc] at hc'
  cases hc'
  rw [hcp] at hcp'
  cases hcp'

/-- The clean pass never adds a mark: a bag unmarked before stays unmarked. -/
theorem clean_no_new_marks {st st' : State} (h : CleanEvol st st') :
    ∀ (j : Nat) (cj : Cell), st.heap[j]? = some cj → cj.copying = false →
    ∀ cj', st'.heap[j]? = some cj' → cj'.copying = false := by
  intro j cj hj hcp cj' hj'
  rcases h.2.1 j with he | ⟨c, s, cp, hc, hccp, _, he⟩
  · rw [he, hj] at hj'
    cases hj'
    exact hcp
  · rw [hj] at hc
    cases hc
    rw [hccp] at hcp
    cases hcp

theorem CleanEvol_trans {st1 st2 st3 : State}
    (h12 : CleanEvol st1 st2) (h23 : CleanEvol st2 st3) : CleanEvol st1 st3 := by
  refine ⟨by rw [h23.1, h12.1], ?_, ?_⟩
  · intro j
    rcases h23.2.1 j with he2 | ⟨c, s, cp, hc, hccp, hs0, he2⟩
    · rcases h12.2.1 j with he1 | ⟨c, s, cp, hc, hccp, hs0, he1⟩
      · exact Or.inl (by rw [he2, he1])
      · exact Or.inr ⟨c, s, cp, hc, hccp, hs0, by rw [he2, he1]⟩
    · rcases h12.2.1 j with he1 | ⟨c1, s1, cp1, hc1, hccp1, hs01, he1⟩
      · exact Or.inr ⟨c, s, cp, by rw [← he1]; exact hc, hccp, hs0, he2⟩
      · rw [he1] at hc
        cases hc
        simp at hccp
  · intro m c c' hc hc' hcp hcp' k q hkq cq' hq'
    have hlen : m < st2.heap.length := by
      have h1 := heap_get_lt hc
      have h2 := h12.1
      omega
    obtain ⟨c2, hc2⟩ := heap_get_of_lt hlen
    have hqlen : q < st2.heap.length := by
      have h1 := heap_get_lt hq'
      have h2 := h23.1
      omega
    obtain ⟨cq2, hcq2⟩ := heap_get_of_lt hqlen
    cases hc2cp : c2.copying with
    | false =>
      have hchild := h12.2.2 m c c2 hc hc2 hcp hc2cp k q hkq
      exact clean_no_new_marks h23 q cq2 hcq2 (hchild cq2 hcq2) cq' hq'
    | true =>
      have hc2c : c2 = c := by
        rcases h12.2.1 m with he | ⟨cX, sX, cpX, hcX, hcpX, _, heX⟩
        · rw [he, hc] at hc2
          cases hc2
          rfl
        · rw [heX] at hc2
          cases hc2
          simp at hc2cp
      subst hc2c
      exact h23.2.2 m c2 c' hc2 hc' hc2cp hcp' k q hkq cq' hq'

theorem cleanPhase : ∀ f : Nat,
    (∀ (st : State) (i : Nat) (st' : State), CLEAN_OBJ f st i = some st' →
      CleanEvol st st' ∧ (∀ c', st'.heap[i]? = some c' → c'.copying = false)) ∧
    (∀ (st : State) (src k : Nat) (st' : State), cleanSlots f st src k = some st' →
      CleanEvol st st' ∧
      (∀ c, st.heap[src]? = some c → ∀ (m q : Nat), k ≤ m →
        c.slots[m]? = some (some q) →
        ∀ cq', st'.heap[q]? = some cq' → cq'.copying = false)) := by
  intro f
  induction f with
  | zero =>
    constructor
    · intro st i st' h
      exact absurd h (by simp [CLEAN_OBJ])
    · intro st src k st' h
      exact absurd h (by simp [cleanSlots])
  | succ f ih =>
    obtain ⟨ihC, ihS⟩ := ih
    constructor
    · intro st i st' hrun
      simp only [CLEAN_OBJ] at hrun
      cases hcell : st.heap[i]? with
      | none => rw [hcell] at hrun; cases hrun
      | some c =>
        simp only [hcell] at hrun
        cases ht : c.tnum with
        | constant =>
          cases hcp : c.copying with
          | false =>
            simp only [ht, hcp] at hrun
            cases hrun
            refine ⟨CleanEvol_refl st, ?_⟩
            intro c' hc'
            rw [hcell] at hc'
            cases hc'
            exact hcp
          | true =>
            simp only [ht, hcp] at hrun
            cases hrun
        | posobj =>
          cases hcp : c.copying with
          | false =>
            simp only [ht, hcp] at hrun
            cases hrun
            refine ⟨CleanEvol_refl st, ?_⟩
            intro c' hc'
            rw [hcell] at hc'
            cases hc'
            exact hcp
          | true =>
            simp only [ht, hcp] at hrun
            cases hs0 : c.slot0 with
            | desc d =>
              simp only [hs0] at hrun
              cases hrun
            | fwd s cpv =>
              simp only [hs0] at hrun
              have hcc : ({ c with copying := false, slot0 := s } : Cell)
                  = { tnum := TNum.posobj, copying := false, mutbl := c.mutbl,
                      copyable := c.copyable, slot0 := s, slots := c.slots } := by
                rw [ht]
              rw [← hcc] at hrun
              obtain ⟨hev1, hchild⟩ := ihS _ i 0 st' hrun
              have hilen : i < st.heap.length := heap_get_lt hcell
              have hg1i : (setCell st i { c with copying := false, slot0 := s }).heap[i]?
                  = some { c with copying := false, slot0 := s } :=
                setCell_get_self _ hilen
              have hroot : ∀ c', st'.heap[i]? = some c' → c'.copying = false := by
                intro c' hc'
                rcases hev1.2.1 i with he | ⟨cA, sA, cpA, hcA, hcpA, _, heA⟩
                · rw [he, hg1i] at hc'
                  cases hc'
                  rfl
                · rw [hg1i] at hcA
                  cases hcA
                  simp at hcpA
              refine ⟨⟨?_, ?_, ?_⟩, hroot⟩
              · rw [hev1.1, setCell_length]
              · intro j
                by_cases hj : j = i
                · subst hj
                  rcases hev1.2.1 j with he | ⟨cA, sA, cpA, hcA, hcpA, _, heA⟩
                  · exact Or.inr ⟨c, s, cpv, hcell, hcp, hs0, by rw [he, hg1i]⟩
                  · rw [hg1i] at hcA
                    cases hcA
                    simp at hcpA
                · rcases hev1.2.1 j with he | ⟨cA, sA, cpA, hcA, hcpA, hsA, heA⟩
                  · exact Or.inl (by
                      rw [he]
                      exact setCell_get_ne _ (fun hh => hj hh.symm))
                  · rw [setCell_get_ne _ (fun hh => hj hh.symm)] at hcA
                    exact Or.inr ⟨cA, sA, cpA, hcA, hcpA, hsA, heA⟩
              · intro m cm cm' hcm hcm' hcmcp hcmcp' k q hkq cq' hq'
                by_cases hm : m = i
                · subst hm
                  rw [hcell] at hcm
                  cases hcm
                  exact hchild _ hg1i k q (Nat.zero_le k) hkq cq' hq'
                · have hcm1 : (setCell st i { c with copying := false, slot0 := s }).heap[m]?
                      = some cm := by
                    rw [setCell_get_ne _ (fun hh => hm hh.symm)]
                    exact hcm
                  exact hev1.2.2 m cm cm' hcm1 hcm' hcmcp hcmcp' k q hkq cq' hq'
    · intro st src k st' hrun
      simp only [cleanSlots] at hrun
      cases hcell : st.heap[src]? with
      | none => rw [hcell] at hrun; cases hrun
      | some c =>
        simp only [hcell] at hrun
        cases hsk : c.slots[k]? with
        | none =>
          simp only [hsk] at hrun
          cases hrun
          refine ⟨CleanEvol_refl st, ?_⟩
          intro c0 hc0 m q hkm hm cq' hq'
          cases hc0
          have hklen : c.slots.length ≤ k := List.getElem?_eq_none_iff.mp hsk
          have hnone : c.slots[m]? = none := List.getElem?_eq_none (by omega)
          rw [hnone] at hm
          cases hm
        | some sv =>
          simp only [hsk] at hrun
          cases sv with
          | none =>
            obtain ⟨hev, hchild⟩ := ihS st src (k+1) st' hrun
            refine ⟨hev, ?_⟩
            intro c0 hc0 m q hkm hm cq' hq'
            cases hc0
            rcases Nat.eq_or_lt_of_le hkm with he | hlt
            · subst he
              rw [hsk] at hm
              cases hm
            · exact hchild c hcell m q (by omega) hm cq' hq'
          | some q =>
            have hrun2 : (match CLEAN_OBJ f st q with
                | none => none
                | some st4 => cleanSlots f st4 src (k+1)) = some st' := hrun
            cases hclean : CLEAN_OBJ f st q with
            | none =>
              rw [hclean] at hrun2
              cases hrun2
            | some st4 =>
              rw [hclean] at hrun2
              simp only [] at hrun2
              obtain ⟨hev4, hpost4⟩ := ihC st q st4 hclean
              obtain ⟨hev', hchild'⟩ := ihS st4 src (k+1) st' hrun2
              refine ⟨CleanEvol_trans hev4 hev', ?_⟩
              intro c0 hc0 m q' hkm hm cq' hq'
              cases hc0
              rcases Nat.eq_or_lt_of_le hkm with he | hlt
              · subst he
                rw [hsk] at hm
                cases hm
                have hq4len : q < st4.heap.length := by
                  have e2 := hev'.1
                  have e3 := heap_get_lt hq'
                  omega
                obtain ⟨cq4, hcq4⟩ := heap_get_of_lt hq4len
                exact clean_no_new_marks hev' q cq4 hcq4 (hpost4 cq4 hcq4) cq' hq'
              · have hsrc4 : ∃ c4, st4.heap[src]? = some c4 ∧ c4.slots = c.slots := by
                  rcases hev4.2.1 src with he | ⟨cA, sA, cpA, hcA, hcpA, hsA, heA⟩
                  · exact ⟨c, by rw [he]; exact hcell, rfl⟩
                  · rw [hcell] at hcA
                    cases hcA
                    exact ⟨_, heA, rfl⟩
                obtain ⟨c4, hc4, hsl4⟩ := hsrc4
                exact hchild' c4 hc4 m q' (by omega) (by rw [hsl4]; exact hm) cq' hq'

/-- Completeness of the clean pass: if the root comes back unmarked, and
every bag the copy phase marked is reachable from the root through marked
bags, then no bag anywhere is still marked afterwards. -/
theorem clean_complete {st2 st3 : State} {root : Nat}
    (hev : CleanEvol st2 st3)
    (hroot : ∀ c', st3.heap[root]? = some c' → c'.copying = false)
    (hreach : ∀ j, markedIn st2 j → Reach st2 root j) :
    ∀ (j : Nat) (c : Cell), st3.heap[j]? = some c → c.copying = false := by
  have aux : ∀ (a j : Nat), Reach st2 a j →
      (∀ ca', st3.heap[a]? = some ca' → ca'.copying = false) →
      ∀ cj', st3.heap[j]? = some cj' → cj'.copying = false := by
    intro a j hr
    induction hr with
    | refl i =>
      intro hgood cj' hj'
      exact hgood cj' hj'
    | step i q j ci hci hcicp hslot hr ih =>
      intro hgood cj' hj'
      have hilen : i < st3.heap.length := by
        have h1 := heap_get_lt hci
        have h2 := hev.1
        omega
      obtain ⟨ci3, hci3⟩ := heap_get_of_lt hilen
      have hci3un : ci3.copying = false := hgood ci3 hci3
      obtain ⟨k, hk⟩ := hslot
      have hq3 : ∀ cq', st3.heap[q]? = some cq' → cq'.copying = false :=
        fun cq' hcq' => hev.2.2 i ci ci3 hci hci3 hcicp hci3un k q hk cq' hcq'
      exact ih hq3 cj' hj'
  intro j c hc
  cases hcpy : c.copying with
  | false => rfl
  | true =>
    have hj2 : markedIn st2 j := by
      rcases hev.2.1 j with he | ⟨cm, s, cp, hcm, hcmcp, _, he⟩
      · exact ⟨c, by rw [← he]; exact hc, hcpy⟩
      · rw [he] at hc
        cases hc
        simp at hcpy
    have := aux root j (hreach j hj2) hroot c hc
    rw [this] at hcpy
    cases hcpy

/-- A heap with no `+COPYING` marks and closed subobject references
satisfies the copy-phase invariant relative to its own length. -/
theorem wf_of_flags {st : State} (h1 : noMarks st = true)
    (h2 : closedRefs st = true) : WfC st.heap.length st := by
  refine ⟨le_rfl, ?_⟩
  intro j c hc
  have hmem : c ∈ st.heap := List.getElem?_mem hc
  have hnc : c.copying = false := by
    have := (List.all_eq_true.mp h1) c hmem
    simpa using this
  refine ⟨fun hj => ⟨?_, fun hcp => by rw [hnc] at hcp; cases hcp⟩,
    fun _ => hnc⟩
  intro k q hkq
  have hall := (List.all_eq_true.mp h2) c hmem
  have hs : (some q) ∈ c.slots := List.getElem?_mem hkq
  have := (List.all_eq_true.mp hall) (some q) hs
  simpa using this

theorem COPY_OBJ_some_lt {f : Nat} {st : State} {i : Nat} {mutArg : Bool}
    {p : State × Nat} (h : COPY_OBJ f st i mutArg = some p) :
    i < st.heap.length := by
  cases f with
  | zero => simp [COPY_OBJ] at h
  | succ g =>
    simp only [COPY_OBJ] at h
    cases hc : st.heap[i]? with
    | none => rw [hc] at h; cases h
    | some c => exact heap_get_lt hc

/-- C1: after a successful top-level `CopyObj` on a heap that starts with
no `+COPYING` marks and closed references, (i) every original bag is
byte-for-byte what it was before the call — in particular its first slot is
restored and it no longer carries the `+COPYING` tag offset, (ii) no bag
anywhere on the heap carries the `+COPYING` tag offset, (iii) the
thread-scoped session pointer `copiedObjs` is empty at the end of the call,
and (iv) it is also reset at the start: the call's result does not depend
on whatever `copiedObjs` held when the call began. -/
theorem CopyObj_cleans (f : Nat) (st : State) (i : Nat) (mutArg : Bool)
    (st' : State) (r : Nat)
    (h1 : noMarks st = true) (h2 : closedRefs st = true)
    (hrun : CopyObj f st i mutArg = some (st', r)) :
    (∀ j : Nat, j < st.heap.length → st'.heap[j]? = st.heap[j]?) ∧
    (∀ (j : Nat) (c : Cell), st'.heap[j]? = some c → c.copying = false) ∧
    st'.copiedObjs = none ∧
    (∀ d : Option Nat, CopyObj f ⟨st.heap, d⟩ i mutArg = some (st', r)) := by
  simp only [CopyObj] at hrun
  cases hcopy : COPY_OBJ f ⟨st.heap, none⟩ i mutArg with
  | none => rw [hcopy] at hrun; cases hrun
  | some p =>
    obtain ⟨st1, r1⟩ := p
    rw [hcopy] at hrun
    simp only [] at hrun
    cases hclean : CLEAN_OBJ f st1 i with
    | none => rw [hclean] at hrun; cases hrun
    | some st2 =>
      rw [hclean] at hrun
      simp only [] at hrun
      cases hrun
      have hiL0 := COPY_OBJ_some_lt hcopy
      have hiL : i < st.heap.length := hiL0
      have hwf0 : WfC st.heap.length (⟨st.heap, none⟩ : State) :=
        wf_of_flags h1 h2
      obtain ⟨hwf1, hev1, _⟩ := (copyPhase f st.heap.length).1
        ⟨st.heap, none⟩ i mutArg st1 r hwf0 hiL hcopy
      obtain ⟨hevC, hrootpost⟩ := (cleanPhase f).1 st1 i st2 hclean
      have hnomark0 : ∀ j, ¬ markedIn (⟨st.heap, none⟩ : State) j := by
        rintro j ⟨c, hc, hcp⟩
        have hmem : c ∈ st.heap := List.getElem?_mem hc
        have := (List.all_eq_true.mp h1) c hmem
        rw [hcp] at this
        simp at this
      have hreach : ∀ j, markedIn st1 j → Reach st1 i j :=
        fun j hm => hev1.2.2.2 j hm (hnomark0 j)
      have hall2 : ∀ (j : Nat) (c : Cell), st2.heap[j]? = some c →
          c.copying = false := clean_complete hevC hrootpost hreach
      refine ⟨?_, hall2, rfl, ?_⟩
      · intro j hj
        show st2.heap[j]? = st.heap[j]?
        obtain ⟨c, hc0⟩ := heap_get_of_lt hj
        have hcun : c.copying = false := by
          have hmem : c ∈ st.heap := List.getElem?_mem hc0
          have := (List.all_eq_true.mp h1) c hmem
          simpa using this
        obtain ⟨c1, hc1, hevc⟩ := hev1.2.2.1 j c hj hc0
        rcases hevc with rfl | ⟨_, _, _, _, cp, hcpL, hcplt, rfl⟩
        · rcases hevC.2.1 j with he | ⟨cm, s, cpX, hcm, hcmcp, hcms, he⟩
          · rw [he, hc1, hc0]
          · rw [hc1] at hcm
            cases hcm
            rw [hcmcp] at hcun
            cases hcun
        · rcases hevC.2.1 j with he | ⟨cm, s, cpX, hcm, hcmcp, hcms, he⟩
          · have := hall2 j (markCell c cp) (by rw [he]; exact hc1)
            simp [markCell] at this
          · rw [hc1] at hcm
            cases hcm
            simp only [markCell, Slot0.fwd.injEq] at hcms
            obtain ⟨hs, _⟩ := hcms
            rw [he, hc0]
            subst hs
            cases c with
            | mk tn cpg mb cb s0 sl =>
              simp only [Cell.copying] at hcun
              subst hcun
              rfl
      · intro d
        show CopyObj f ⟨st.heap, d⟩ i mutArg = some (⟨st2.heap, none⟩, r)
        simp only [CopyObj]
        rw [hcopy]
        simp only []
        rw [hclean]

/-- Witness for C1 on a cyclic two-bag graph (bag 0 references bag 1 and
itself): the copy succeeds, the two originals are restored exactly, and no
bag on the final heap is marked. -/
theorem CopyObj_cleans_witness :
    noMarks (⟨[⟨TNum.posobj, false, true, true, Slot0.desc 7, [some 1, some 0]⟩,
        ⟨TNum.posobj, false, true, true, Slot0.desc 8, []⟩], none⟩ : State) = true ∧
    CopyObj 5 (⟨[⟨TNum.posobj, false, true, true, Slot0.desc 7, [some 1, some 0]⟩,
        ⟨TNum.posobj, false, true, true, Slot0.desc 8, []⟩], none⟩ : State) 0 true
      = some ((⟨[⟨TNum.posobj, false, true, true, Slot0.desc 7, [some 1, some 0]⟩,
        ⟨TNum.posobj, false, true, true, Slot0.desc 8, []⟩,
        ⟨TNum.posobj, false, true, true, Slot0.desc 7, [some 3, some 2]⟩,
        ⟨TNum.posobj, false, true, true, Slot0.desc 8, []⟩], none⟩ : State), 2) ∧
    (∀ (j : Nat) (c : Cell),
      (⟨[⟨TNum.posobj, false, true, true, Slot0.desc 7, [some 1, some 0]⟩,
        ⟨TNum.posobj, false, true, true, Slot0.desc 8, []⟩,
        ⟨TNum.posobj, false, true, true, Slot0.desc 7, [some 3, some 2]⟩,
        ⟨TNum.posobj, false, true, true, Slot0.desc 8, []⟩], none⟩ : State).heap[j]?
          = some c → c.copying = false) :=
  ⟨by decide, by decide,
    (CopyObj_cleans 5
      ⟨[⟨TNum.posobj, false, true, true, Slot0.desc 7, [some 1, some 0]⟩,
        ⟨TNum.posobj, false, true, true, Slot0.desc 8, []⟩], none⟩ 0 true
      ⟨[⟨TNum.posobj, false, true, true, Slot0.desc 7, [some 1, some 0]⟩,
        ⟨TNum.posobj, false, true, true, Slot0.desc 8, []⟩,
        ⟨TNum.posobj, false, true, true, Slot0.desc 7, [some 3, some 2]⟩,
        ⟨TNum.posobj, false, true, true, Slot0.desc 8, []⟩], none⟩ 2
      (by decide) (by decide) (by decide)).2.1⟩

/-- C2: (a) when `COPY_OBJ` meets a bag already carrying the `+COPYING`
offset, it returns the already-created copy recorded in the forwarding
record without recursing and without touching the heap
(`CopyObjPosObjCopy`); (b) consequently, on a clean well-formed heap, if
two subobject slots of `p` reference the same mutable positional bag `q`,
the corresponding two slots of the copy of `p` reference the same newly
allocated bag, not two independent copies. -/
theorem COPY_OBJ_sharing (f : Nat) :
    (∀ (st : State) (i : Nat) (mutArg : Bool) (c : Cell) (s : Slot0) (cp : Nat),
      st.heap[i]? = some c → c.tnum = TNum.posobj → c.copying = true →
      c.slot0 = Slot0.fwd s cp →
      COPY_OBJ (f+1) st i mutArg = some (st, cp)) ∧
    (∀ (st st' : State) (p r : Nat) (mutArg : Bool) (c cq : Cell)
        (j1 j2 q : Nat),
      noMarks st = true → closedRefs st = true →
      st.heap[p]? = some c → c.tnum = TNum.posobj → c.mutbl = true →
      c.slots[j1]? = some (some q) → c.slots[j2]? = some (some q) →
      st.heap[q]? = some cq → cq.tnum = TNum.posobj → cq.mutbl = true →
      COPY_OBJ f st p mutArg = some (st', r) →
      ∃ cc v, st'.heap[r]? = some cc ∧ cc.slots[j1]? = some (some v) ∧
        cc.slots[j2]? = some (some v) ∧ st.heap.length ≤ v) := by
  constructor
  · intro st i mutArg c s cp hc ht hcp hs0
    simp only [COPY_OBJ, hc, ht, hcp, hs0]
  · intro st st' p r mutArg c cq j1 j2 q h1 h2 hc ht hm hj1 hj2 hcq hqt hqm hcopy
    have hwf := wf_of_flags h1 h2
    have hpL : p < st.heap.length := heap_get_lt hc
    obtain ⟨hwf', hev, hres⟩ :=
      (copyPhase f st.heap.length).1 st p mutArg st' r hwf hpL hcopy
    have hcun : c.copying = false := by
      have hmem : c ∈ st.heap := List.getElem?_mem hc
      have := (List.all_eq_true.mp h1) c hmem
      simpa using this
    obtain ⟨hr, hmk, cc, hccget, hcc1, hcc2, hcc3, hcc4, hcc5, hcc6, hslot⟩ :=
      (hres c hc).2.2 hcun ht hm
    obtain ⟨v1, hv1, hcr1⟩ := hslot j1 q hj1
    obtain ⟨v2, hv2, hcr2⟩ := hslot j2 q hj2
    have hqL : q < st.heap.length := ((hwf.2 p c hc).1 hpL).1 j1 q hj1
    obtain ⟨cq2, hq2, hevq⟩ := hev.2.2.1 q cq hqL hcq
    have hqt2 : cq2.tnum = TNum.posobj := by
      rcases hevq with rfl | ⟨_, _, _, _, cpx, _, _, rfl⟩
      · exact hqt
      · exact hqt
    have hqm2 : cq2.mutbl = true := by
      rcases hevq with rfl | ⟨_, _, _, _, cpx, _, _, rfl⟩
      · exact hqm
      · exact hqm
    obtain ⟨cqa, hqa, hd1⟩ := hcr1
    obtain ⟨cqb, hqb, hd2⟩ := hcr2
    rw [hq2] at hqa hqb
    cases hqa
    cases hqb
    rcases hd1 with ⟨hmk1, s1, hs1⟩ | ⟨_, _, hbad⟩
    · rcases hd2 with ⟨hmk2, s2, hs2⟩ | ⟨_, _, hbad⟩
      · rw [hs1] at hs2
        simp only [Slot0.fwd.injEq] at hs2
        obtain ⟨hseq, hveq⟩ := hs2
        subst hveq
        obtain ⟨_, _, sx, cpx, hsx, hLcp, _⟩ := ((hwf'.2 q cq2 hq2).1 hqL).2 hmk1
        rw [hs1] at hsx
        simp only [Slot0.fwd.injEq] at hsx
        obtain ⟨_, hcpx⟩ := hsx
        subst hcpx
        exact ⟨cc, v1, hccget, hv1, hv2, hLcp⟩
      · rcases hbad with hbt | hbm
        · rw [hqt2] at hbt
          cases hbt
        · rw [hqm2] at hbm
          cases hbm
    · rcases hbad with hbt | hbm
      · rw [hqt2] at hbt
        cases hbt
      · rw [hqm2] at hbm
        cases hbm

/-- Witness for C2: (a) a marked bag whose forwarding record designates
bag 5 makes `COPY_OBJ` return 5 with the heap untouched; (b) copying a bag
whose two slots both reference bag 1 yields a copy whose two slots both
reference the same new bag. -/
theorem COPY_OBJ_sharing_witness :
    COPY_OBJ 1
        (⟨[⟨TNum.posobj, true, true, true, Slot0.fwd (Slot0.desc 7) 5, []⟩],
          none⟩ : State) 0 true
      = some (⟨[⟨TNum.posobj, true, true, true, Slot0.fwd (Slot0.desc 7) 5, []⟩],
          none⟩, 5) ∧
    (∃ cc v,
      (⟨[⟨TNum.posobj, true, true, true, Slot0.fwd (Slot0.desc 7) 2, [some 1, some 1]⟩,
         ⟨TNum.posobj, true, true, true, Slot0.fwd (Slot0.desc 8) 3, []⟩,
         ⟨TNum.posobj, false, true, true, Slot0.desc 7, [some 3, some 3]⟩,
         ⟨TNum.posobj, false, true, true, Slot0.desc 8, []⟩], none⟩ : State).heap[2]?
          = some cc ∧
      cc.slots[0]? = some (some v) ∧ cc.slots[1]? = some (some v) ∧
      (⟨[⟨TNum.posobj, false, true, true, Slot0.desc 7, [some 1, some 1]⟩,
         ⟨TNum.posobj, false, true, true, Slot0.desc 8, []⟩],
        none⟩ : State).heap.length ≤ v) :=
  ⟨(COPY_OBJ_sharing 0).1
      ⟨[⟨TNum.posobj, true, true, true, Slot0.fwd (Slot0.desc 7) 5, []⟩], none⟩ 0 true
      ⟨TNum.posobj, true, true, true, Slot0.fwd (Slot0.desc 7) 5, []⟩ (Slot0.desc 7) 5
      (by decide) (by decide) (by decide) (by decide),
   (COPY_OBJ_sharing 4).2
      ⟨[⟨TNum.posobj, false, true, true, Slot0.desc 7, [some 1, some 1]⟩,
        ⟨TNum.posobj, false, true, true, Slot0.desc 8, []⟩], none⟩
      ⟨[⟨TNum.posobj, true, true, true, Slot0.fwd (Slot0.desc 7) 2, [some 1, some 1]⟩,
        ⟨TNum.posobj, true, true, true, Slot0.fwd (Slot0.desc 8) 3, []⟩,
        ⟨TNum.posobj, false, true, true, Slot0.desc 7, [some 3, some 3]⟩,
        ⟨TNum.posobj, false, true, true, Slot0.desc 8, []⟩], none⟩
      0 2 true
      ⟨TNum.posobj, false, true, true, Slot0.desc 7, [some 1, some 1]⟩
      ⟨TNum.posobj, false, true, true, Slot0.desc 8, []⟩
      0 1 1
      (by decide) (by decide) (by decide) (by decide) (by decide) (by decide)
      (by decide) (by decide) (by decide) (by decide) (by decide)⟩

end GapObjects
